import Mathlib

/-!
Verification of the EditorAssistant ingestion-and-correlation pipeline.

Shallow embedding of the Python sources under `src/`:
timestamps are modelled as `Int` (seconds), Python floats as `Rat`
(all weights are 0.5 / 1.0 / 2.0, exact in both representations),
Python `None` as `Option.none`, database tables as Lean lists kept in
insertion order (serial primary keys are strictly increasing, so a
`SELECT` without `ORDER BY` is modelled as returning rows in id order).
-/

namespace EditorAssistant

/-- Fixed constants, the defaults of the corresponding environment
variables in `tg_parser.py`. -/
def WINDOW_SEC : Int := 10

def TG_SLEEP_ON_FLOOD : Int := 60

/-- Default of `TG_QR_TIMEOUT` in `tg_auth.py`. -/
def QR_TIMEOUT_SECONDS : Int := 120

/-- Python `str.strip()`: drops leading and trailing whitespace
(character-list implementation so that concrete inputs evaluate). -/
def pyStrip (s : String) : String :=
  ⟨((s.data.dropWhile Char.isWhitespace).reverse.dropWhile Char.isWhitespace).reverse⟩

/-- Python `len(s)` (code points). -/
def pyLen (s : String) : Nat := s.data.length

/-- Python `s[:n]` (code points). -/
def pyTake (s : String) (n : Nat) : String := ⟨s.data.take n⟩

/-- Python `max(0, int(x or 0))`: `None` becomes `0`, then the value is
clamped below by `0` (`db/social_stats.py`). -/
def clamp0 (x : Option Int) : Int := max 0 (x.getD 0)

/-- Python `x or 0` on an optional int (`0` is falsy and maps to `0`,
which coincides with `getD`). -/
def orZero (x : Option Int) : Int := x.getD 0

/-- Row of the `article_social_stat` table (`db/models/article_social_stat.py`). -/
structure ArticleSocialStat where
  entity_id : Nat
  like_count : Int
  repost_count : Int
  comment_count : Int
  view_count : Int
  engagement_score : Rat
  previous_engagement : Option Rat
  engagement_delta : Option Rat
  is_trending : Bool
  collected_at : Int
deriving Repr, DecidableEq

/-- Row of the `article_social_stat_history` table
(`db/models/article_social_stat_history.py`); the serial `id` column is
implicit in the list position. -/
structure HistoryRow where
  entity_id : Nat
  like_count : Int
  repost_count : Int
  comment_count : Int
  view_count : Int
  engagement_score : Rat
  collected_at : Int
deriving Repr, DecidableEq

/-- Embeds `compute_engagement_score` of `db/social_stats.py`:
`max(0, int(comment or 0))*1.0 + max(0, int(like or 0))*0.5 + max(0, int(repost or 0))*2.0`. -/
def compute_engagement_score (like_count repost_count comment_count : Option Int) : Rat :=
  (clamp0 comment_count : Rat) * 1 + (clamp0 like_count : Rat) * (1 / 2) + (clamp0 repost_count : Rat) * 2

/-- Embeds `insert_article_social_stat_history` of `db/social_stats.py`:
appends one immutable history row with clamped counters;
`float(engagement_score or 0.0)` maps `None` to `0`. -/
def insert_article_social_stat_history (hist : List HistoryRow) (article_id : Nat)
    (like_count repost_count comment_count view_count : Option Int)
    (engagement_score : Option Rat) (collected_at : Int) : List HistoryRow :=
  hist ++ [{ entity_id := article_id
             like_count := clamp0 like_count
             repost_count := clamp0 repost_count
             comment_count := clamp0 comment_count
             view_count := clamp0 view_count
             engagement_score := engagement_score.getD 0
             collected_at := collected_at }]

/-- Embeds `upsert_article_social_stat` of `db/social_stats.py`: an
`INSERT .. ON CONFLICT (entity_id) DO UPDATE` whose `SET` clause writes
the same values as the insert, so both branches produce the same row;
`is_trending` is `bool(x) if x is not None else False`. -/
def upsert_article_social_stat (stats : List ArticleSocialStat) (article_id : Nat)
    (like_count repost_count comment_count view_count : Option Int)
    (engagement_score : Option Rat) (previous_engagement engagement_delta : Option Rat)
    (is_trending : Option Bool) (collected_at : Int) : List ArticleSocialStat :=
  let row : ArticleSocialStat :=
    { entity_id := article_id
      like_count := clamp0 like_count
      repost_count := clamp0 repost_count
      comment_count := clamp0 comment_count
      view_count := clamp0 view_count
      engagement_score := engagement_score.getD 0
      previous_engagement := previous_engagement
      engagement_delta := engagement_delta
      is_trending := is_trending.getD false
      collected_at := collected_at }
  if stats.any (fun s => s.entity_id == article_id) then
    stats.map (fun s => if s.entity_id == article_id then row else s)
  else
    stats ++ [row]

/-- Row of the `articles` table (`db/models/article.py`). -/
structure Article where
  id : Nat
  source_id : Nat
  title : String
  link : String
  description : Option String
  guid : String
  published_at : Option Int
  fetched_at : Int
  parent_article_id : Option Nat
deriving Repr, DecidableEq

/-- Whole persistent state touched by the fetchers: the three tables plus
the next serial article id. -/
structure Db where
  articles : List Article
  stats : List ArticleSocialStat
  hist : List HistoryRow
  nextId : Nat
deriving Repr, DecidableEq

/-- The dedup query shared by all three fetchers:
`SELECT id FROM articles WHERE source_id = :s AND (guid = :g OR link = :l) LIMIT 1`. -/
def existsMatch (articles : List Article) (source_id : Nat) (guid link : String) : Bool :=
  articles.any (fun a => a.source_id == source_id && (a.guid == guid || a.link == link))

/-- Telethon `Message` restricted to the attributes `tg_parser.py` reads:
`message` (the text body), whether `msg.media` is truthy, `msg.date`
(UTC, optional), the reaction counts, `forwards`, `replies.replies`
(`none` models a missing `replies` object) and `views`. -/
structure TgMsg where
  id : Nat
  message : String
  hasMedia : Bool
  date : Option Int
  reactions : List Int
  forwards : Option Int
  replies : Option Int
  views : Option Int
deriving Repr, DecidableEq

/-- Embeds the `link` f-string of `_msg_to_article_fields`. -/
def tgLink (channel : String) (msgId : Nat) : String :=
  "https://t.me/" ++ channel ++ "/" ++ toString msgId

/-- Fields produced by `_msg_to_article_fields` in `tg_parser.py`
(`fetched_at` is the caller's `datetime.now`, passed in as `now`). -/
structure TgFields where
  title : String
  description : Option String
  link : String
  guid : String
  published_at : Option Int
  fetched_at : Int
deriving Repr, DecidableEq

/-- Embeds `_msg_to_article_fields` of `tg_parser.py`: title is the text
truncated to 120 characters with an ellipsis, or the permalink when the
text is empty; description is the text or NULL. -/
def msg_to_article_fields (msg : TgMsg) (channel : String) (now : Int) : TgFields :=
  let text := pyStrip msg.message
  let link := tgLink channel msg.id
  { title := if pyLen text > 120 then pyTake text 120 ++ "…"
             else if text == "" then link else text
    description := if text == "" then none else some text
    link := link
    guid := "tg:" ++ channel ++ ":" ++ toString msg.id
    published_at := msg.date
    fetched_at := now }

/-- Embeds `_tg_counts_from_msg` of `tg_parser.py`: the tuple
`(reactions, reposts, comments, views)` which the caller binds as
`(like_count, repost_count, comment_count, view_count)`. -/
def tg_counts_from_msg (msg : TgMsg) : Int × Int × Int × Int :=
  (msg.reactions.foldl (fun acc c => acc + orZero (some c)) 0,
   orZero msg.forwards,
   orZero msg.replies,
   orZero msg.views)

/-- Embeds the `is_child` closure of `_process_tg_source`: no text body,
has media, NULL description and the title equals the own permalink. -/
def is_child (msg : TgMsg) (title : String) (description : Option String)
    (channel : String) : Bool :=
  !(pyStrip msg.message != "") && msg.hasMedia && description == none
    && title == tgLink channel msg.id

/-- Python `min(xs, key=k)`: the first element attaining the minimal key
(`foldl` keeps the earlier element on ties because of the strict `<`). -/
def minByFirst (key : α → Int) (x : α) (xs : List α) : α :=
  xs.foldl (fun best y => if key y < key best then y else best) x

/-- The row select of the `find_parent_by_time` closure:
`(id, published_at)` of unlinked text posts of the same source inside
the ±`WINDOW_SEC` window (SQL comparisons exclude NULL `published_at`). -/
def parentRows (articles : List Article) (source_id : Nat) (time : Int) :
    List (Nat × Int) :=
  articles.filterMap (fun a =>
    if a.source_id == source_id && a.parent_article_id.isNone && a.description.isSome
    then match a.published_at with
      | some p => if time - WINDOW_SEC ≤ p ∧ p ≤ time + WINDOW_SEC then some (a.id, p) else none
      | none => none
    else none)

/-- Embeds the `find_parent_by_time` closure of `_process_tg_source`:
takes the selected row minimising `abs(published_at - time)`.  The
`or time` fallback of the source is dead because the window filter
already excludes NULL timestamps. -/
def find_parent_by_time (articles : List Article) (source_id : Nat) (time : Int) :
    Option Nat :=
  match parentRows articles source_id time with
  | [] => none
  | r :: rs => some (minByFirst (fun x => |x.2 - time|) r rs).1

/-- Embeds the `UPDATE` of the `attach_children` closure: set
`parent_article_id = parent` on the listed ids where it is currently
NULL (the conditional update that prevents double-attachment). -/
def attachUpdate (articles : List Article) (parent_id : Nat) (children_ids : List Nat) :
    List Article :=
  articles.map (fun a =>
    if children_ids.contains a.id && a.parent_article_id.isNone
    then { a with parent_article_id := some parent_id } else a)

/-- Embeds `attach_children` of `tg_parser.py`: the update plus the
returned rowcount (`0` rows touched when `children_ids` is empty). -/
def attach_children (articles : List Article) (parent_id : Nat) (children_ids : List Nat) :
    List Article × Nat :=
  if children_ids.isEmpty then (articles, 0)
  else (attachUpdate articles parent_id children_ids,
        (articles.filter (fun a =>
          children_ids.contains a.id && a.parent_article_id.isNone)).length)

/-- Embeds the orphan query of the text-post branch of
`_process_tg_source`: unlinked, NULL description, title equal to own
link, same source, timestamp inside the window. -/
def orphanQuery (articles : List Article) (source_id : Nat) (t0 t1 : Int) : List Nat :=
  (articles.filter (fun a =>
    a.source_id == source_id && a.parent_article_id.isNone && a.description.isNone
      && a.title == a.link
      && (match a.published_at with
          | some p => decide (t0 ≤ p) && decide (p ≤ t1)
          | none => false))).map (fun a => a.id)

/-- Embeds the body of the `async for` loop of `_process_tg_source` for
one message.  `Except.error ()` models the `TypeError` raised by
`published_at - timedelta(...)` when `msg.date` is NULL: the session is
closed without a commit, so the caller keeps the state it had before the
message (the uncommitted insert is discarded), and the exception
propagates to the generic handler of the pass.  The second dedup guard
is the `ON CONFLICT (source_id, guid) DO NOTHING` of the insert, whose
`session.rollback()` on a missing returned id leaves the state
unchanged. -/
def process_tg_message (channel : String) (source_id : Nat) (now : Int) (db : Db)
    (msg : TgMsg) : Except Unit (Db × Nat) :=
  let f := msg_to_article_fields msg channel now
  let has_text := pyStrip msg.message != ""
  let is_child_var := is_child msg f.title f.description channel
  if existsMatch db.articles source_id f.guid f.link then .ok (db, 0)
  else if db.articles.any (fun a => a.source_id == source_id && a.guid == f.guid) then
    .ok (db, 0)
  else
    let new_id := db.nextId
    let art : Article :=
      { id := new_id, source_id := source_id, title := f.title, link := f.link
        description := f.description, guid := f.guid, published_at := f.published_at
        fetched_at := now, parent_article_id := none }
    let db1 : Db := { db with articles := db.articles ++ [art], nextId := db.nextId + 1 }
    if has_text then
      match f.published_at with
      | none => .error ()
      | some t =>
        let orphan_ids := orphanQuery db1.articles source_id (t - WINDOW_SEC) (t + WINDOW_SEC)
        let db2 : Db := { db1 with articles := if orphan_ids.isEmpty then db1.articles
                          else (attach_children db1.articles new_id orphan_ids).1 }
        let counts := tg_counts_from_msg msg
        let score := compute_engagement_score (some counts.1) (some counts.2.1) (some counts.2.2.1)
        let hist2 := insert_article_social_stat_history db2.hist new_id
          (some counts.1) (some counts.2.1) (some counts.2.2.1) (some counts.2.2.2)
          (some score) now
        let stats2 := upsert_article_social_stat db2.stats new_id
          (some counts.1) (some counts.2.1) (some counts.2.2.1) (some counts.2.2.2)
          (some score) none none (some false) now
        .ok ({ db2 with hist := hist2, stats := stats2 }, 1)
    else if is_child_var then
      match f.published_at with
      | none => .error ()
      | some t =>
        match find_parent_by_time db1.articles source_id t with
        | some parent_id =>
          .ok ({ db1 with articles := (attach_children db1.articles parent_id [new_id]).1 }, 1)
        | none => .ok (db1, 1)
    else .ok (db1, 1)

/-- One event of the message iteration of `_process_tg_source`: either a
delivered message or an exception raised by `iter_messages`
(`FloodWaitError` with its optional `seconds` attribute, `RPCError`, or
any other exception). -/
inductive TgEvent where
  | msg (m : TgMsg)
  | floodErr (seconds : Option Int)
  | rpcErr
  | unexpectedErr
deriving Repr, DecidableEq

/-- Embeds `int(getattr(error, "seconds", TG_SLEEP_ON_FLOOD) or TG_SLEEP_ON_FLOOD)`:
a missing or falsy (`0`) `seconds` attribute falls back to the default. -/
def floodWaitSeconds (seconds : Option Int) : Int :=
  let v := seconds.getD TG_SLEEP_ON_FLOOD
  if v == 0 then TG_SLEEP_ON_FLOOD else v

/-- Result of one `_process_tg_source` pass: final committed state, the
returned `added` count, the flood sleeps performed, and whether the
iteration ran to the end without an exception. -/
structure TgPassResult where
  db : Db
  added : Nat
  slept : List Int
  completed : Bool
deriving Repr, DecidableEq

/-- Embeds the `try`/`except` structure of `_process_tg_source`: a
`FloodWaitError` sleeps for `floodWaitSeconds` and then the function
returns `added` (the handler is outside the loop, so iteration is NOT
resumed); `RPCError` and any other exception are logged and the
function returns `added`; an exception inside the loop body propagates
to the same handlers with the current message's work rolled back. -/
def process_tg_source (channel : String) (source_id : Nat) (now : Int) :
    Db → List TgEvent → Nat → TgPassResult
  | db, [], acc => ⟨db, acc, [], true⟩
  | db, .msg m :: rest, acc =>
    match process_tg_message channel source_id now db m with
    | .ok (db', k) => process_tg_source channel source_id now db' rest (acc + k)
    | .error _ => ⟨db, acc, [], false⟩
  | db, .floodErr s :: _, acc => ⟨db, acc, [floodWaitSeconds s], false⟩
  | db, .rpcErr :: _, acc => ⟨db, acc, [], false⟩
  | db, .unexpectedErr :: _, acc => ⟨db, acc, [], false⟩

/-- One whole Telegram pass over a source (`added` starts at 0). -/
def runTgPass (channel : String) (source_id : Nat) (now : Int) (db : Db)
    (events : List TgEvent) : TgPassResult :=
  process_tg_source channel source_id now db events 0

/-- VK wall post restricted to the fields `process_vk_source` reads:
`post.get("id")` (absent or `0` is falsy and skipped), `post["text"]`
and the optional `post["date"]` unix timestamp. -/
structure VkPost where
  id : Option Nat
  text : String
  date : Option Int
deriving Repr, DecidableEq

/-- Embeds the `link` f-string of `process_vk_source`. -/
def vkLink (owner_id : Int) (post_id : Nat) : String :=
  "https://vk.com/wall" ++ toString owner_id ++ "_" ++ toString post_id

/-- Embeds the `guid` f-string of `process_vk_source`. -/
def vkGuid (owner_id : Int) (post_id : Nat) : String :=
  "vk:" ++ toString owner_id ++ ":" ++ toString post_id

/-- Embeds the per-post body of the loop of `process_vk_source` in
`vk_parser.py`: truthiness check on the id, link/guid/title/description
construction, the dedup select and the
`ON CONFLICT (source_id, guid) DO NOTHING` insert whose rowcount drives
`added`.  Media download does not touch the database state. -/
def process_vk_post (source_id : Nat) (owner_id : Int) (now : Int) (db : Db)
    (post : VkPost) : Db × Nat :=
  match post.id with
  | none => (db, 0)
  | some post_id =>
    if post_id == 0 then (db, 0)
    else
      let text := pyStrip post.text
      let link := vkLink owner_id post_id
      let guid := vkGuid owner_id post_id
      let title := if pyLen text > 120 then pyTake text 120 ++ "…"
                   else if text == "" then link else text
      let description := if text == "" then none else some text
      if existsMatch db.articles source_id guid link then (db, 0)
      else if db.articles.any (fun a => a.source_id == source_id && a.guid == guid) then
        (db, 0)
      else
        let art : Article :=
          { id := db.nextId, source_id := source_id, title := title, link := link
            description := description, guid := guid, published_at := post.date
            fetched_at := now, parent_article_id := none }
        ({ db with articles := db.articles ++ [art], nextId := db.nextId + 1 }, 1)

/-- Embeds the loop of `process_vk_source` over the fetched wall posts. -/
def process_vk_source (source_id : Nat) (owner_id : Int) (now : Int) (db : Db)
    (posts : List VkPost) : Db × Nat :=
  posts.foldl (fun acc post =>
    let r := process_vk_post source_id owner_id now acc.1 post
    (r.1, acc.2 + r.2)) (db, 0)

/-- RSS entry restricted to the attributes `process_source` of
`rss_parser.py` reads (`getattr(entry, _, "") or ""` makes every text
field a plain string with `""` for absent). -/
structure RssEntry where
  title : String
  link : String
  entryId : String
  entryGuid : String
  description : String
  published : Option Int
deriving Repr, DecidableEq

/-- Embeds the guid fallback chain of `process_source` in
`rss_parser.py`: `entry.id or entry.guid or link or title` (Python `or`
chain, first non-empty wins). -/
def rssGuid (entry : RssEntry) : String :=
  if entry.entryId != "" then entry.entryId
  else if entry.entryGuid != "" then entry.entryGuid
  else if entry.link != "" then entry.link
  else entry.title

/-- Embeds the per-entry body of the loop of `process_source` in
`rss_parser.py`: incomplete entries (empty title, link or guid) are
skipped with a warning; the dedup select guards a plain `session.add`;
note the inserted `description` is the raw string, possibly empty,
never NULL. -/
def process_rss_entry (source_id : Nat) (now : Int) (db : Db) (entry : RssEntry) :
    Db × Nat :=
  let guid := rssGuid entry
  if entry.title == "" || entry.link == "" || guid == "" then (db, 0)
  else if existsMatch db.articles source_id guid entry.link then (db, 0)
  else
    let art : Article :=
      { id := db.nextId, source_id := source_id, title := entry.title, link := entry.link
        description := some entry.description, guid := guid, published_at := entry.published
        fetched_at := now, parent_article_id := none }
    ({ db with articles := db.articles ++ [art], nextId := db.nextId + 1 }, 1)

/-- Embeds the entry loop of `process_source` (RSS). -/
def process_rss_source (source_id : Nat) (now : Int) (db : Db) (entries : List RssEntry) :
    Db × Nat :=
  entries.foldl (fun acc e =>
    let r := process_rss_entry source_id now acc.1 e
    (r.1, acc.2 + r.2)) (db, 0)

/-- One fetch pass of any of the three fetchers, as scheduled by the
orchestrator's `run_cycle`. -/
inductive Pass where
  | tg (channel : String) (source_id : Nat) (now : Int) (events : List TgEvent)
  | vk (source_id : Nat) (owner_id : Int) (now : Int) (posts : List VkPost)
  | rss (source_id : Nat) (now : Int) (entries : List RssEntry)

/-- Applies one pass to the database state. -/
def runPass (db : Db) : Pass → Db
  | .tg channel source_id now events => (runTgPass channel source_id now db events).db
  | .vk source_id owner_id now posts => (process_vk_source source_id owner_id now db posts).1
  | .rss source_id now entries => (process_rss_source source_id now db entries).1

/-- Any sequence of fetch/correlation passes. -/
def runPasses (db : Db) (ps : List Pass) : Db :=
  ps.foldl runPass db

/-- The `AuthState` dataclass of `tg_auth.py`; `user` abbreviates the
info dict returned by `_authorized_user`. -/
structure AuthState where
  status : String := "unauthorized"
  qr_url : Option String := none
  expires_at : Option Int := none
  error : Option String := none
  user : Option String := none
deriving Repr, DecidableEq

/-- Mutable fields of `TelegramAuthManager` that the claims touch:
the state, the current `qr_login` token (its url), and the watch task
(`some done?`; `none` when absent or cancelled). -/
structure ManagerState where
  state : AuthState := {}
  qr_login : Option String := none
  qr_task : Option Bool := none
deriving Repr, DecidableEq

namespace TelegramAuthManager

/-- Embeds `TelegramAuthManager.status` of `tg_auth.py`.  `probe` models
`await client.is_user_authorized()` (an exception becomes the `error`
state), `userInfo` models `_authorized_user()`.  The first `if` returns
the cached state for `authorized`, `pending`, `password_required` and
`expired` — including `pending`, so the expiry branch below it (source
lines 134–141) can never see a `pending` state and is dead code. -/
def status (m : ManagerState) (now : Int) (probe : Except String Bool)
    (userInfo : Option String) : ManagerState × AuthState :=
  if m.state.status == "authorized" || m.state.status == "pending"
      || m.state.status == "password_required" || m.state.status == "expired" then
    (m, m.state)
  else
    match probe with
    | .error e =>
      let s : AuthState := { status := "error", error := some e }
      ({ m with state := s }, s)
    | .ok true =>
      let s : AuthState := { status := "authorized", user := userInfo }
      ({ m with state := s }, s)
    | .ok false =>
      if m.state.status == "pending"
          && (match m.state.expires_at with
              | some e => decide (now ≥ e)
              | none => false) then
        let s : AuthState := { status := "expired" }
        ({ m with state := s, qr_task := none, qr_login := none }, s)
      else if m.state.status == "pending" || m.state.status == "password_required" then
        (m, m.state)
      else if !(m.state.status == "expired" || m.state.status == "error") then
        let s : AuthState := { status := "unauthorized" }
        ({ m with state := s }, s)
      else (m, m.state)

/-- Embeds `TelegramAuthManager.start_qr` of `tg_auth.py`.
`clientAuthorized` models `await client.is_user_authorized()`,
`freshUrl` the url of a newly issued `client.qr_login()` token.  A
non-expired pending attempt is returned unchanged when `force` is
false (Python truthiness: an empty `qr_url` string is falsy). -/
def start_qr (m : ManagerState) (force : Bool) (now : Int)
    (clientAuthorized : Bool) (userInfo : Option String) (freshUrl : String) :
    ManagerState × AuthState :=
  if clientAuthorized && !force then
    let s : AuthState := { status := "authorized", user := userInfo }
    ({ m with state := s }, s)
  else if !force && m.qr_login.isSome && m.state.status == "pending"
      && m.state.expires_at.isSome
      && (match m.state.expires_at with
          | some e => decide (now < e)
          | none => false)
      && (match m.state.qr_url with
          | some u => u != ""
          | none => false) then
    (m, m.state)
  else
    let s : AuthState := { status := "pending", qr_url := some freshUrl
                           expires_at := some (now + QR_TIMEOUT_SECONDS) }
    ({ state := s, qr_login := some freshUrl, qr_task := some false }, s)

end TelegramAuthManager

/-- Embeds `_ensure_client` of `tg_parser.py` at its decision points:
missing credentials raise `RuntimeError`; an unauthorized session yields
`none` (the pass is skipped); otherwise a usable client.  The
`database is locked` retry loop is environmental and not modelled. -/
def ensure_client (credsSet : Bool) (sessionAuthorized : Bool) :
    Except String (Option Unit) :=
  if !credsSet then .error "API_ID/API_HASH are not set"
  else if sessionAuthorized then .ok (some ()) else .ok none

/-- One enabled Telegram source as seen by `_run_tg_cycle_async`:
channel name, source id, and the events its iteration delivers. -/
structure TgSourceInput where
  channel : String
  source_id : Nat
  events : List TgEvent

/-- Embeds `run_tg_cycle`/`_run_tg_cycle_async` of `tg_parser.py`: a
`RuntimeError` from `_ensure_client` escapes `asyncio.run`, is caught by
the `except RuntimeError` of `run_tg_cycle`, which retries the same
coroutine on `loop.run_until_complete` — deterministically raising the
same error again, this time uncaught.  An unauthorized session skips the
pass with zero additions; otherwise every enabled tg source is processed
by `_process_tg_source`, which never raises past its own boundary. -/
def run_tg_cycle (credsSet sessionAuthorized : Bool) (now : Int) (db : Db)
    (sources : List TgSourceInput) : Except String (Db × Nat) :=
  match ensure_client credsSet sessionAuthorized with
  | .error e => .error e
  | .ok none => .ok (db, 0)
  | .ok (some _) =>
    .ok (sources.foldl (fun acc s =>
      let r := runTgPass s.channel s.source_id now acc.1 s.events
      (r.db, acc.2 + r.added)) (db, 0))

/-- Embeds the per-source `try`/`except` of `run_vk_cycle` in
`vk_parser.py`: each element is the outcome of `process_vk_source` for
one enabled source; an exception is logged and contributes zero
additions while the remaining sources still run. -/
def run_vk_cycle (sourceResults : List (Except String Nat)) : Nat :=
  sourceResults.foldl (fun acc r => acc + (match r with | .ok k => k | .error _ => 0)) 0

/-- Modelled from the spec: `run_rss_cycle`, imported by
`src/assistant/parser.py` from `src/assistant/rss_parser.py`, is not
defined in the sources under `src/` (the file only has the standalone
`full_cycle`).  Per the spec's fetcher contract it "never raises past
its own boundary — a single source's failure is logged and treated as
zero additions", matching `full_cycle`'s per-source `try`/`except`. -/
def run_rss_cycle (sourceResults : List (Except String Nat)) : Nat :=
  sourceResults.foldl (fun acc r => acc + (match r with | .ok k => k | .error _ => 0)) 0

/-- Inputs of one orchestrator cycle. -/
structure CycleInput where
  vkResults : List (Except String Nat)
  rssResults : List (Except String Nat)
  credsSet : Bool
  tgAuthorized : Bool
  tgSources : List TgSourceInput
  now : Int

/-- Embeds `run_cycle` of `parser.py`: `run_vk_cycle`, `run_rss_cycle`
and `run_tg_cycle` are called in sequence with no surrounding
`try`/`except`, so an exception escaping any of them propagates out of
`run_cycle`; otherwise the added counts are summed.  The subsequent
word-stats and social-stats passes do not alter the fetch results. -/
def run_cycle (db : Db) (c : CycleInput) : Except String (Db × Nat) :=
  let vk := run_vk_cycle c.vkResults
  let rss := run_rss_cycle c.rssResults
  match run_tg_cycle c.credsSet c.tgAuthorized c.now db c.tgSources with
  | .error e => .error e
  | .ok (db', tgAdded) => .ok (db', vk + rss + tgAdded)

/-- Embeds `main` of `parser.py`: `while True: run_cycle(); sleep(...)`
with no exception handling — the first exception escaping `run_cycle`
terminates the loop.  Modelled on a finite schedule of cycle inputs:
the result is the state after all cycles, or the first escaping error. -/
def main_loop (db : Db) : List CycleInput → Except String Db
  | [] => .ok db
  | c :: rest =>
    match run_cycle db c with
    | .error e => .error e
    | .ok (db', _) => main_loop db' rest

/-! Invariant predicates and concrete inputs used by the theorems. -/

/-- Article ids strictly increase along the table (serial primary key,
insertion order). -/
def idsSorted (articles : List Article) : Prop :=
  articles.Pairwise (fun a b => a.id < b.id)

/-- Every stored id is below the next serial id. -/
def idsBelow (db : Db) : Prop := ∀ a ∈ db.articles, a.id < db.nextId

/-- Every article with a parent is media-only (NULL description). -/
def childrenMediaOnly (articles : List Article) : Prop :=
  ∀ a ∈ articles, a.parent_article_id.isSome → a.description = none

/-- Every parent reference points at an existing text post. -/
def parentsHaveText (articles : List Article) : Prop :=
  ∀ a ∈ articles, ∀ pid, a.parent_article_id = some pid →
    ∃ b ∈ articles, b.id = pid ∧ b.description.isSome

/-- Well-formedness of the embedded database state. -/
def WF (db : Db) : Prop :=
  idsSorted db.articles ∧ idsBelow db ∧ childrenMediaOnly db.articles
    ∧ parentsHaveText db.articles

/-- The parent/child relation has depth at most one. -/
def depthAtMostOne (articles : List Article) : Prop :=
  ∀ a ∈ articles, ∀ b ∈ articles, a.parent_article_id = some b.id →
    b.parent_article_id = none

/-- The dedup boundary of the `articles` table: no two rows share
(source_id, guid) or (source_id, link). -/
def dedupUnique (articles : List Article) : Prop :=
  articles.Pairwise (fun a b =>
    a.source_id = b.source_id → a.guid ≠ b.guid ∧ a.link ≠ b.link)

/-- The empty database (serial ids start at 1). -/
def emptyDb : Db := ⟨[], [], [], 1⟩

/-- The dedup key of an article row: (source_id, guid, link). -/
def articleKey (a : Article) : Nat × String × String := (a.source_id, a.guid, a.link)

/-- The claim C7 candidate set: an unlinked text post of the same source
whose timestamp lies inside the ±`WINDOW_SEC` window around `t`. -/
def parentCandidate (a : Article) (source_id : Nat) (t : Int) : Prop :=
  a.source_id = source_id ∧ a.parent_article_id = none ∧ a.description.isSome
    ∧ ∃ p, a.published_at = some p ∧ t - WINDOW_SEC ≤ p ∧ p ≤ t + WINDOW_SEC

/-- Absolute time distance of a candidate to the orphan's timestamp. -/
def candDist (a : Article) (t : Int) : Int := |a.published_at.getD t - t|

/-- Modelled from the spec for the refinement comparison of the
Telegram ingestion stats path: the spec says the upsert supplies
`previous_engagement` / `engagement_delta` "computed against the
article's prior snapshot before overwriting", i.e. the prior score and
the difference of the new score against it. -/
def spec_prev_delta (prior : Option Rat) (newScore : Rat) : Option Rat × Option Rat :=
  (prior, prior.map (fun p => newScore - p))

/-- Concrete text message (id 1, body "hello", no media). -/
def tgTextMsg1 : TgMsg :=
  { id := 1, message := "hello", hasMedia := false, date := some 1000
    reactions := [], forwards := none, replies := none, views := none }

/-- Concrete text message (id 2, body "world"). -/
def tgTextMsg2 : TgMsg :=
  { id := 2, message := "world", hasMedia := false, date := some 2000
    reactions := [], forwards := none, replies := none, views := none }

/-- Concrete text message carrying engagement counters: 2 reactions,
2 forwards, 3 replies, 100 views. -/
def tgStatsMsg : TgMsg :=
  { id := 7, message := "hello", hasMedia := false, date := some 1000
    reactions := [2], forwards := some 2, replies := some 3, views := some 100 }

/-- Database whose stats table already holds a snapshot with score 5 for
entity 1, the id the next inserted article receives. -/
def dbWithPriorSnapshot : Db :=
  { articles := []
    stats := [{ entity_id := 1, like_count := 0, repost_count := 0, comment_count := 0
                view_count := 0, engagement_score := 5, previous_engagement := none
                engagement_delta := none, is_trending := false, collected_at := 0 }]
    hist := []
    nextId := 1 }

/-- A concrete ingested text post (id 1, published at time 1000). -/
def textArticle : Article :=
  { id := 1, source_id := 1, title := "hello", link := "https://t.me/c/1"
    description := some "hello", guid := "tg:c:1", published_at := some 1000
    fetched_at := 1000, parent_article_id := none }

/-- A database holding a single unlinked text post. -/
def dbWithTextPost : Db := { articles := [textArticle], stats := [], hist := [], nextId := 2 }

/-- A concrete media-only message (no body, has media, published at 1004). -/
def tgOrphanMsg : TgMsg :=
  { id := 9, message := "", hasMedia := true, date := some 1004
    reactions := [], forwards := none, replies := none, views := none }

/-- A cycle whose Telegram fetcher runs without API credentials
(`API_ID`/`API_HASH` unset) while VK and RSS sources succeed. -/
def badCredsCycle : CycleInput :=
  { vkResults := [.ok 1], rssResults := [.ok 1], credsSet := false
    tgAuthorized := true, tgSources := [], now := 0 }

/-- A healthy cycle: credentials set, Telegram session unauthorized
(skip), one successful VK source. -/
def goodCycle : CycleInput :=
  { vkResults := [.ok 1], rssResults := [], credsSet := true
    tgAuthorized := false, tgSources := [], now := 0 }

/-- A manager state holding a pending QR attempt that expires at time 100. -/
def pendingAttempt : ManagerState :=
  { state := { status := "pending", qr_url := some "tg://login?token=abc"
               expires_at := some 100 }
    qr_login := some "tg://login?token=abc"
    qr_task := some false }

/-! Theorems. -/

/-- C3: for all non-negative counter values the engagement score equals
`comments*1.0 + likes*0.5 + reposts*2.0`; the view count does not affect
the score computed on the Telegram ingestion path; and for likes = 10,
reposts = 2, comments = 3 the score is 12.0. -/
theorem engagement_score_formula :
    (∀ like repost comment : Int, 0 ≤ like → 0 ≤ repost → 0 ≤ comment →
      compute_engagement_score (some like) (some repost) (some comment)
        = (comment : Rat) * 1 + (like : Rat) * (1 / 2) + (repost : Rat) * 2)
    ∧ (∀ msg : TgMsg, ∀ v : Option Int,
        compute_engagement_score (some (tg_counts_from_msg { msg with views := v }).1)
          (some (tg_counts_from_msg { msg with views := v }).2.1)
          (some (tg_counts_from_msg { msg with views := v }).2.2.1)
        = compute_engagement_score (some (tg_counts_from_msg msg).1)
            (some (tg_counts_from_msg msg).2.1)
            (some (tg_counts_from_msg msg).2.2.1))
    ∧ compute_engagement_score (some 10) (some 2) (some 3) = 12 := by
  refine ⟨fun like repost comment hl hr hc => ?_, fun msg v => rfl,
    by norm_num [compute_engagement_score, clamp0]⟩
  simp only [compute_engagement_score, clamp0, Option.getD_some]
  rw [max_eq_right hc, max_eq_right hl, max_eq_right hr]

/-- C3 witness: the theorem applied at likes = 10, reposts = 2,
comments = 3. -/
theorem engagement_score_formula_witness :
    compute_engagement_score (some 10) (some 2) (some 3)
      = (3 : Rat) * 1 + (10 : Rat) * (1 / 2) + (2 : Rat) * 2 :=
  engagement_score_formula.1 10 2 3 (by decide) (by decide) (by decide)

/-- A history row has only non-negative counters. -/
def histRowNonneg (h : HistoryRow) : Prop :=
  0 ≤ h.like_count ∧ 0 ≤ h.repost_count ∧ 0 ≤ h.comment_count ∧ 0 ≤ h.view_count

/-- A snapshot row has only non-negative counters. -/
def statRowNonneg (s : ArticleSocialStat) : Prop :=
  0 ≤ s.like_count ∧ 0 ≤ s.repost_count ∧ 0 ≤ s.comment_count ∧ 0 ≤ s.view_count

theorem clamp0_nonneg (x : Option Int) : 0 ≤ clamp0 x := le_max_left 0 _

/-- C10: for arbitrary (possibly missing or negative) counter inputs the
computed engagement score is non-negative, and both persistence
operations clamp every counter with `max(0, ·)`: every like / repost /
comment / view count stored in the history table and in the current
snapshot stays non-negative after any operation. -/
theorem stats_counters_clamped :
    (∀ like repost comment : Option Int, 0 ≤ compute_engagement_score like repost comment)
    ∧ (∀ hist article_id like repost comment view score t,
        (∀ h ∈ hist, histRowNonneg h) →
        ∀ h ∈ insert_article_social_stat_history hist article_id like repost comment view score t,
          histRowNonneg h)
    ∧ (∀ stats article_id like repost comment view score prev delta trending t,
        (∀ s ∈ stats, statRowNonneg s) →
        ∀ s ∈ upsert_article_social_stat stats article_id like repost comment view score prev delta trending t,
          statRowNonneg s) := by
  refine ⟨fun like repost comment => ?_, ?_, ?_⟩
  · have h1 := clamp0_nonneg like
    have h2 := clamp0_nonneg repost
    have h3 := clamp0_nonneg comment
    unfold compute_engagement_score
    have c1 : (0 : Rat) ≤ (clamp0 comment : Rat) := by exact_mod_cast h3
    have c2 : (0 : Rat) ≤ (clamp0 like : Rat) := by exact_mod_cast h1
    have c3 : (0 : Rat) ≤ (clamp0 repost : Rat) := by exact_mod_cast h2
    refine add_nonneg (add_nonneg (mul_nonneg c1 ?_) (mul_nonneg c2 ?_)) (mul_nonneg c3 ?_)
      <;> norm_num
  · intro hist article_id like repost comment view score t hall h hmem
    unfold insert_article_social_stat_history at hmem
    rcases List.mem_append.mp hmem with hold | hnew
    · exact hall h hold
    · rcases List.mem_singleton.mp hnew with rfl
      exact ⟨clamp0_nonneg _, clamp0_nonneg _, clamp0_nonneg _, clamp0_nonneg _⟩
  · intro stats article_id like repost comment view score prev delta trending t hall s hmem
    unfold upsert_article_social_stat at hmem
    by_cases hc : stats.any (fun s => s.entity_id == article_id)
    · rw [if_pos hc] at hmem
      rcases List.mem_map.mp hmem with ⟨s0, hs0, heq⟩
      by_cases he : s0.entity_id == article_id
      · rw [if_pos he] at heq
        subst heq
        exact ⟨clamp0_nonneg _, clamp0_nonneg _, clamp0_nonneg _, clamp0_nonneg _⟩
      · rw [if_neg he] at heq
        subst heq
        exact hall s0 hs0
    · rw [if_neg hc] at hmem
      rcases List.mem_append.mp hmem with hold | hnew
      · exact hall s hold
      · rcases List.mem_singleton.mp hnew with rfl
        exact ⟨clamp0_nonneg _, clamp0_nonneg _, clamp0_nonneg _, clamp0_nonneg _⟩

/-- C10 witness: the clamping theorem applied at concrete negative and
missing inputs. -/
theorem stats_counters_clamped_witness :
    (0 : Rat) ≤ compute_engagement_score (some (-5)) none (some (-1))
    ∧ ∀ h ∈ insert_article_social_stat_history [] 1 (some (-3)) none (some (-2)) (some (-7)) none 0,
        histRowNonneg h := by
  refine ⟨stats_counters_clamped.1 (some (-5)) none (some (-1)), ?_⟩
  exact stats_counters_clamped.2.1 [] 1 (some (-3)) none (some (-2)) (some (-7)) none 0
    (by intro h hh; cases hh)

/-- C5 (code bug): calling `Status()` on a pending attempt whose expiry
(100) lies before `now` (200) returns the unchanged `pending` state and
leaves the manager — including the live watch task — untouched: the
early return for cached states fires before the expiry branch, so the
`pending → expired` transition of source lines 134–141 is unreachable. -/
theorem status_pending_past_expiry_stays_pending :
    (TelegramAuthManager.status pendingAttempt 200 (.ok false) none).2.status = "pending"
    ∧ (TelegramAuthManager.status pendingAttempt 200 (.ok false) none).1 = pendingAttempt
    ∧ (TelegramAuthManager.status pendingAttempt 200 (.ok false) none).1.qr_task = some false
    ∧ pendingAttempt.state.expires_at = some 100 := by
  refine ⟨rfl, rfl, rfl, rfl⟩

/-- C6 counterexample: with source data `[text message 1, flood error of
5 seconds, text message 2]` the pass sleeps 5 seconds and then returns
with `added = 1`; the message after the pause point is never inserted
(its guid is absent), although the same data without the flood error
yields `added = 2` — the claim that iteration continues from where it
left off is false. -/
theorem flood_wait_does_not_resume_cex :
    (runTgPass "c" 1 500 emptyDb [.msg tgTextMsg1, .floodErr (some 5), .msg tgTextMsg2]).added = 1
    ∧ (runTgPass "c" 1 500 emptyDb [.msg tgTextMsg1, .floodErr (some 5), .msg tgTextMsg2]).slept = [5]
    ∧ (runTgPass "c" 1 500 emptyDb
        [.msg tgTextMsg1, .floodErr (some 5), .msg tgTextMsg2]).db.articles.all
        (fun a => a.guid != "tg:c:2") = true
    ∧ (runTgPass "c" 1 500 emptyDb [.msg tgTextMsg1, .msg tgTextMsg2]).added = 2 := by
  decide

/-- C6 (amended): a flood-control error makes the pass sleep for the
server-specified duration (or the 60-second default when the `seconds`
attribute is absent or falsy) and then return that source's pass with
the state and count accumulated so far — the remaining events of the
iteration are not processed; protocol (`RPCError`) and unexpected
errors abort only that source's pass, without a sleep. -/
theorem flood_wait_pauses_then_aborts :
    (∀ channel source_id now db rest acc s,
      process_tg_source channel source_id now db (.floodErr s :: rest) acc
        = ⟨db, acc, [floodWaitSeconds s], false⟩)
    ∧ (∀ channel source_id now db rest acc,
        process_tg_source channel source_id now db (.rpcErr :: rest) acc = ⟨db, acc, [], false⟩)
    ∧ (∀ channel source_id now db rest acc,
        process_tg_source channel source_id now db (.unexpectedErr :: rest) acc
          = ⟨db, acc, [], false⟩)
    ∧ (∀ k : Int, k ≠ 0 → floodWaitSeconds (some k) = k)
    ∧ floodWaitSeconds none = TG_SLEEP_ON_FLOOD
    ∧ floodWaitSeconds (some 0) = TG_SLEEP_ON_FLOOD := by
  refine ⟨fun _ _ _ _ _ _ _ => rfl, fun _ _ _ _ _ _ => rfl, fun _ _ _ _ _ _ => rfl,
    fun k hk => ?_, rfl, rfl⟩
  simp [floodWaitSeconds, hk]

/-- C6 amended-theorem witness: the flood branch applied at a concrete
non-zero wait. -/
theorem flood_wait_pauses_then_aborts_witness :
    floodWaitSeconds (some 5) = 5 :=
  flood_wait_pauses_then_aborts.2.2.2.1 5 (by decide)

/-- C4 counterexample: processing the concrete text message
`tgStatsMsg` (2 reactions, 2 forwards, 3 replies ⇒ score 8) over a
state whose snapshot table already holds score 5 for the id the new
article receives, the ingestion upsert overwrites the snapshot with
`previous_engagement = None` and `engagement_delta = None`, whereas the
claimed computation against the prior snapshot would supply
`(some 5, some 3)`. -/
theorem tg_ingestion_no_delta_cex :
    ((process_tg_message "c" 1 1000 dbWithPriorSnapshot tgStatsMsg).toOption.map
      (fun r => r.1.stats.map (fun s => (s.entity_id, s.previous_engagement, s.engagement_delta))))
      = some [(1, none, none)]
    ∧ spec_prev_delta (some 5)
        (compute_engagement_score (some (tg_counts_from_msg tgStatsMsg).1)
          (some (tg_counts_from_msg tgStatsMsg).2.1)
          (some (tg_counts_from_msg tgStatsMsg).2.2.1))
      = (some 5, some 3)
    ∧ (some (5 : Rat), some (3 : Rat)) ≠ ((none : Option Rat), (none : Option Rat)) := by
  refine ⟨by decide, ?_, by decide⟩
  norm_num [spec_prev_delta, compute_engagement_score, clamp0, tg_counts_from_msg,
    tgStatsMsg, orZero]

/-- The upsert always leaves a row for the upserted entity carrying the
supplied score, previous engagement and delta. -/
theorem upsert_contains_row (stats : List ArticleSocialStat) (article_id : Nat)
    (l r c v : Option Int) (sc p d : Option Rat) (tr : Option Bool) (t : Int) :
    ∃ s ∈ upsert_article_social_stat stats article_id l r c v sc p d tr t,
      s.entity_id = article_id ∧ s.engagement_score = sc.getD 0
      ∧ s.previous_engagement = p ∧ s.engagement_delta = d := by
  unfold upsert_article_social_stat
  by_cases h : stats.any (fun s => s.entity_id == article_id) = true
  · rw [if_pos h]
    rcases List.any_eq_true.mp h with ⟨s0, hs0, he⟩
    refine ⟨_, List.mem_map_of_mem _ hs0, ?_⟩
    rw [if_pos he]
    exact ⟨rfl, rfl, rfl, rfl⟩
  · rw [if_neg h]
    exact ⟨_, List.mem_append_right _ (List.mem_singleton_self _), rfl, rfl, rfl, rfl⟩

/-- C4 (amended): for every Telegram text post inserted at ingestion
time, both a history row and the current snapshot are written with the
computed engagement score, but the snapshot upsert supplies
`previous_engagement = None` and `engagement_delta = None`
unconditionally — no delta is computed against any prior snapshot. -/
theorem tg_ingestion_writes_history_and_snapshot :
    ∀ channel source_id now (db : Db) (msg : TgMsg) (t : Int),
      existsMatch db.articles source_id (msg_to_article_fields msg channel now).guid
        (msg_to_article_fields msg channel now).link = false →
      pyStrip msg.message ≠ "" →
      msg.date = some t →
      ∃ db', process_tg_message channel source_id now db msg = .ok (db', 1)
        ∧ db'.hist = insert_article_social_stat_history db.hist db.nextId
            (some (tg_counts_from_msg msg).1) (some (tg_counts_from_msg msg).2.1)
            (some (tg_counts_from_msg msg).2.2.1) (some (tg_counts_from_msg msg).2.2.2)
            (some (compute_engagement_score (some (tg_counts_from_msg msg).1)
              (some (tg_counts_from_msg msg).2.1) (some (tg_counts_from_msg msg).2.2.1))) now
        ∧ ∃ s ∈ db'.stats, s.entity_id = db.nextId
            ∧ s.engagement_score = compute_engagement_score (some (tg_counts_from_msg msg).1)
                (some (tg_counts_from_msg msg).2.1) (some (tg_counts_from_msg msg).2.2.1)
            ∧ s.previous_engagement = none ∧ s.engagement_delta = none := by
  intro channel source_id now db msg t hex htext hdate
  have hguid : db.articles.any (fun a => a.source_id == source_id
      && a.guid == (msg_to_article_fields msg channel now).guid) = false := by
    unfold existsMatch at hex
    rw [List.any_eq_false] at hex ⊢
    intro a ha
    have h1 := hex a ha
    cases hsrc : (a.source_id == source_id) <;>
      cases hg : (a.guid == (msg_to_article_fields msg channel now).guid) <;>
        simp_all
  have htextb : (pyStrip msg.message != "") = true := by simpa using htext
  have hpub : (msg_to_article_fields msg channel now).published_at = some t := by
    simp [msg_to_article_fields, hdate]
  unfold process_tg_message
  simp only [hex, hguid, htextb, hpub, Bool.false_eq_true, if_false, reduceIte]
  refine ⟨_, rfl, rfl, ?_⟩
  simpa using upsert_contains_row db.stats db.nextId
    (some (tg_counts_from_msg msg).1) (some (tg_counts_from_msg msg).2.1)
    (some (tg_counts_from_msg msg).2.2.1) (some (tg_counts_from_msg msg).2.2.2)
    (some (compute_engagement_score (some (tg_counts_from_msg msg).1)
      (some (tg_counts_from_msg msg).2.1) (some (tg_counts_from_msg msg).2.2.1)))
    none none (some false) now

/-- C4 amended-theorem witness: the concrete counter-carrying message
over the empty database. -/
theorem tg_ingestion_writes_history_and_snapshot_witness :
    ∃ db', process_tg_message "c" 1 1000 emptyDb tgStatsMsg = .ok (db', 1)
      ∧ db'.hist = insert_article_social_stat_history emptyDb.hist emptyDb.nextId
          (some (tg_counts_from_msg tgStatsMsg).1) (some (tg_counts_from_msg tgStatsMsg).2.1)
          (some (tg_counts_from_msg tgStatsMsg).2.2.1) (some (tg_counts_from_msg tgStatsMsg).2.2.2)
          (some (compute_engagement_score (some (tg_counts_from_msg tgStatsMsg).1)
            (some (tg_counts_from_msg tgStatsMsg).2.1)
            (some (tg_counts_from_msg tgStatsMsg).2.2.1))) 1000
      ∧ ∃ s ∈ db'.stats, s.entity_id = emptyDb.nextId
          ∧ s.engagement_score = compute_engagement_score (some (tg_counts_from_msg tgStatsMsg).1)
              (some (tg_counts_from_msg tgStatsMsg).2.1) (some (tg_counts_from_msg tgStatsMsg).2.2.1)
          ∧ s.previous_engagement = none ∧ s.engagement_delta = none :=
  tg_ingestion_writes_history_and_snapshot "c" 1 1000 emptyDb tgStatsMsg 1000 (by decide)
    (by decide) rfl

/-- C9: while a non-expired pending QR attempt exists, every `StartQR`
call with `force = false` returns the existing pending state unchanged
(same `qr_url`, same `expires_at`, no new token), so any pair of such
calls observes the same attempt; a call made at or after the expiry
timestamp issues a fresh token with the new url and a new expiry. -/
theorem start_qr_idempotent_until_expiry :
    ∀ (m : ManagerState) (now now2 : Int) (userInfo : Option String)
      (freshUrl : String) (e : Int) (u : String),
      m.state.status = "pending" → m.state.expires_at = some e →
      m.state.qr_url = some u → u ≠ "" → m.qr_login.isSome →
      (now < e →
        TelegramAuthManager.start_qr m false now false userInfo freshUrl = (m, m.state))
      ∧ (e ≤ now2 → freshUrl ≠ u →
          (TelegramAuthManager.start_qr m false now2 false userInfo freshUrl).2.status = "pending"
          ∧ (TelegramAuthManager.start_qr m false now2 false userInfo freshUrl).2.qr_url
              = some freshUrl
          ∧ (TelegramAuthManager.start_qr m false now2 false userInfo freshUrl).2.qr_url
              ≠ m.state.qr_url
          ∧ (TelegramAuthManager.start_qr m false now2 false userInfo freshUrl).2.expires_at
              = some (now2 + QR_TIMEOUT_SECONDS)
          ∧ (TelegramAuthManager.start_qr m false now2 false userInfo freshUrl).1.qr_login
              = some freshUrl) := by
  intro m now now2 userInfo freshUrl e u hst hexp hurl hu hlogin
  constructor
  · intro hlt
    unfold TelegramAuthManager.start_qr
    simp [hst, hexp, hurl, hu, hlogin, hlt]
  · intro hge hne
    have hnotlt : ¬(now2 < e) := not_lt.mpr hge
    unfold TelegramAuthManager.start_qr
    simp [hst, hexp, hurl, hu, hlogin, hnotlt, hne]

/-- C9 witness: the theorem applied to the concrete pending attempt
(expiry 100) at times 50 (same state returned) and 150 (fresh token). -/
theorem start_qr_idempotent_until_expiry_witness :
    (50 : Int) < 100
    ∧ TelegramAuthManager.start_qr pendingAttempt false 50 false none "tg://login?token=new"
        = (pendingAttempt, pendingAttempt.state)
    ∧ (TelegramAuthManager.start_qr pendingAttempt false 150 false none
        "tg://login?token=new").2.qr_url = some "tg://login?token=new" := by
  have h := start_qr_idempotent_until_expiry pendingAttempt 50 150 none "tg://login?token=new"
    100 "tg://login?token=abc" rfl rfl rfl (by decide) (by decide)
  exact ⟨by decide, h.1 (by decide), (h.2 (by decide) (by decide)).2.1⟩

/-- C8 counterexample: when the Telegram fetcher's pass raises (missing
API credentials — the `RuntimeError` of `_ensure_client` escapes
`run_tg_cycle` because its `except RuntimeError` merely re-runs the same
coroutine), `run_cycle` has no handler: the cycle's result is the error
rather than zero additions, and the orchestrator loop terminates — the
following healthy cycle never runs. -/
theorem fetcher_error_kills_orchestrator_cex :
    run_tg_cycle false true 0 emptyDb [] = .error "API_ID/API_HASH are not set"
    ∧ run_cycle emptyDb badCredsCycle = .error "API_ID/API_HASH are not set"
    ∧ main_loop emptyDb [badCredsCycle, goodCycle] = .error "API_ID/API_HASH are not set"
    ∧ main_loop emptyDb [goodCycle, goodCycle] = .ok emptyDb := by
  refine ⟨rfl, rfl, rfl, rfl⟩

/-- Auxiliary: the per-source fold of `run_vk_cycle`/`run_rss_cycle`
shifted by an initial accumulator. -/
theorem per_source_fold_shift (xs : List (Except String Nat)) : ∀ init : Nat,
    xs.foldl (fun acc r => acc + (match r with | .ok k => k | .error _ => 0)) init
      = init + xs.foldl (fun acc r => acc + (match r with | .ok k => k | .error _ => 0)) 0 := by
  induction xs with
  | nil => intro init; simp
  | cons x xs ih =>
    intro init
    simp only [List.foldl_cons]
    rw [ih (init + _), ih (0 + _)]
    omega

/-- C8 (amended): inside each fetcher a single source's failure is
caught, logged and treated as zero additions while the remaining
sources of that fetcher still run (per-source isolation); but an
exception escaping a whole fetcher's pass is not caught by `run_cycle`
or `main` — it propagates and terminates the orchestrator loop. -/
theorem fetcher_per_source_isolation :
    (∀ xs ys : List (Except String Nat),
      run_vk_cycle (xs ++ ys) = run_vk_cycle xs + run_vk_cycle ys)
    ∧ (∀ e : String, run_vk_cycle [.error e] = 0)
    ∧ (∀ k : Nat, run_vk_cycle [.ok k] = k)
    ∧ (∀ xs ys : List (Except String Nat),
        run_rss_cycle (xs ++ ys) = run_rss_cycle xs + run_rss_cycle ys)
    ∧ (∀ e : String, run_rss_cycle [.error e] = 0)
    ∧ (∀ db : Db, ∀ c : CycleInput, ∀ e : String,
        run_tg_cycle c.credsSet c.tgAuthorized c.now db c.tgSources = .error e →
        run_cycle db c = .error e)
    ∧ (∀ db : Db, ∀ c : CycleInput, ∀ rest : List CycleInput, ∀ e : String,
        run_cycle db c = .error e → main_loop db (c :: rest) = .error e) := by
  refine ⟨fun xs ys => ?_, fun e => rfl, fun k => by simp [run_vk_cycle],
    fun xs ys => ?_, fun e => rfl, fun db c e h => ?_, fun db c rest e h => ?_⟩
  · unfold run_vk_cycle
    rw [List.foldl_append, per_source_fold_shift]
  · unfold run_rss_cycle
    rw [List.foldl_append, per_source_fold_shift]
  · unfold run_cycle
    rw [h]
  · unfold main_loop
    rw [h]

/-- C8 amended-theorem witness: isolation and propagation applied at
concrete inputs. -/
theorem fetcher_per_source_isolation_witness :
    run_vk_cycle ([.error "boom"] ++ [.ok 2]) = run_vk_cycle [.error "boom"] + run_vk_cycle [.ok 2]
    ∧ main_loop emptyDb [badCredsCycle, goodCycle] = .error "API_ID/API_HASH are not set" := by
  refine ⟨fetcher_per_source_isolation.1 [.error "boom"] [.ok 2], ?_⟩
  exact fetcher_per_source_isolation.2.2.2.2.2.2 emptyDb badCredsCycle [goodCycle]
    "API_ID/API_HASH are not set"
    (fetcher_per_source_isolation.2.2.2.2.2.1 emptyDb badCredsCycle
      "API_ID/API_HASH are not set" rfl)

/-- Python `min` returns an element of its argument. -/
theorem minByFirst_mem (key : α → Int) (x : α) (xs : List α) :
    minByFirst key x xs ∈ x :: xs := by
  induction xs generalizing x with
  | nil => simp [minByFirst]
  | cons y ys ih =>
    have h := ih (if key y < key x then y else x)
    have heq : minByFirst key x (y :: ys) = minByFirst key (if key y < key x then y else x) ys := rfl
    rw [heq]
    rcases List.mem_cons.mp h with h1 | h1
    · rw [h1]
      by_cases hc : key y < key x
      · simp [hc]
      · simp [hc]
    · exact List.mem_cons_of_mem x (List.mem_cons_of_mem y h1)

/-- Python `min` with a key minimises the key and, on ties, returns the
first minimiser — on a list with strictly increasing ids that is the
element with the lowest id. -/
theorem minByFirst_spec (key : α → Int) (idOf : α → Nat) :
    ∀ (xs : List α) (x : α), (x :: xs).Pairwise (fun a b => idOf a < idOf b) →
      (∀ y ∈ x :: xs, key (minByFirst key x xs) ≤ key y)
      ∧ (∀ y ∈ x :: xs, key y = key (minByFirst key x xs) →
          idOf (minByFirst key x xs) ≤ idOf y) := by
  intro xs
  induction xs with
  | nil =>
    intro x _
    constructor
    · intro y hy
      rcases List.mem_singleton.mp hy with rfl
      exact le_refl _
    · intro y hy _
      rcases List.mem_singleton.mp hy with rfl
      exact le_refl _
  | cons y ys ih =>
    intro x hpw
    rcases List.pairwise_cons.mp hpw with ⟨hx, hyys⟩
    rcases List.pairwise_cons.mp hyys with ⟨hy, hys⟩
    have hpw' : ((if key y < key x then y else x) :: ys).Pairwise (fun a b => idOf a < idOf b) := by
      refine List.pairwise_cons.mpr ⟨?_, hys⟩
      intro b hb
      by_cases hc : key y < key x
      · rw [if_pos hc]; exact hy b hb
      · rw [if_neg hc]; exact hx b (List.mem_cons_of_mem y hb)
    obtain ⟨ihmin, ihtie⟩ := ih (if key y < key x then y else x) hpw'
    have heq : minByFirst key x (y :: ys) = minByFirst key (if key y < key x then y else x) ys := rfl
    have hself := ihmin _ (List.mem_cons_self _ _)
    have hminx : key (minByFirst key (if key y < key x then y else x) ys) ≤ key x := by
      by_cases hc : key y < key x
      · rw [if_pos hc] at hself ⊢; exact le_of_lt (lt_of_le_of_lt hself hc)
      · rw [if_neg hc] at hself ⊢; exact hself
    have hminy : key (minByFirst key (if key y < key x then y else x) ys) ≤ key y := by
      by_cases hc : key y < key x
      · rw [if_pos hc] at hself ⊢; exact hself
      · rw [if_neg hc] at hself ⊢; exact le_trans hself (not_lt.mp hc)
    constructor
    · intro z hz
      rw [heq]
      rcases List.mem_cons.mp hz with rfl | hz1
      · exact hminx
      rcases List.mem_cons.mp hz1 with rfl | hz2
      · exact hminy
      · exact ihmin z (List.mem_cons_of_mem _ hz2)
    · intro z hz hkz
      rw [heq] at hkz ⊢
      rcases List.mem_cons.mp hz with hzx | hz1
      · subst hzx
        by_cases hc : key y < key z
        · exfalso
          have h5 := hminy
          omega
        · exact ihtie z (by rw [if_neg hc]; exact List.mem_cons_self _ _) hkz
      rcases List.mem_cons.mp hz1 with hzy | hz2
      · subst hzy
        by_cases hc : key z < key x
        · exact ihtie z (by rw [if_pos hc]; exact List.mem_cons_self _ _) hkz
        · have hxy : key x ≤ key z := not_lt.mp hc
          have h1 := hminx
          have hkx : key x = key (minByFirst key (if key z < key x then z else x) ys) := by
            omega
          have h2 := ihtie x (by rw [if_neg hc]; exact List.mem_cons_self _ _) hkx
          have h3 : idOf x < idOf z := hx z (List.mem_cons_self _ _)
          omega
      · exact ihtie z (List.mem_cons_of_mem _ hz2) hkz

/-- Membership in the parent-candidate row select. -/
theorem parentRows_mem (arts : List Article) (sid : Nat) (t : Int) (x : Nat) (p : Int) :
    (x, p) ∈ parentRows arts sid t ↔
      ∃ a ∈ arts, a.id = x ∧ a.published_at = some p ∧ parentCandidate a sid t := by
  unfold parentRows
  rw [List.mem_filterMap]
  constructor
  · rintro ⟨a, ha, hf⟩
    by_cases h1 : (a.source_id == sid && a.parent_article_id.isNone && a.description.isSome) = true
    · rw [if_pos h1] at hf
      cases hpub : a.published_at with
      | none => rw [hpub] at hf; cases hf
      | some q =>
        rw [hpub] at hf
        have hf2 : (if t - WINDOW_SEC ≤ q ∧ q ≤ t + WINDOW_SEC
            then some (a.id, q) else none) = some (x, p) := hf
        by_cases h2 : t - WINDOW_SEC ≤ q ∧ q ≤ t + WINDOW_SEC
        · rw [if_pos h2] at hf2
          have h3 := Option.some.inj hf2
          have hx : a.id = x := congrArg Prod.fst h3
          have hp : q = p := congrArg Prod.snd h3
          subst hp
          simp only [Bool.and_eq_true, beq_iff_eq, Option.isNone_iff_eq_none] at h1
          exact ⟨a, ha, hx, hpub, h1.1.1, h1.1.2, h1.2, q, hpub, h2.1, h2.2⟩
        · rw [if_neg h2] at hf2; cases hf2
    · rw [if_neg h1] at hf; cases hf
  · rintro ⟨a, ha, hx, hpub, hsid, hpar, hdesc, q, hq, hw1, hw2⟩
    refine ⟨a, ha, ?_⟩
    have hqp : q = p := by rw [hpub] at hq; exact (Option.some.inj hq).symm
    subst hqp
    have h1 : (a.source_id == sid && a.parent_article_id.isNone && a.description.isSome) = true := by
      simp [hsid, hpar, hdesc]
    rw [if_pos h1, hpub]
    show (if t - WINDOW_SEC ≤ q ∧ q ≤ t + WINDOW_SEC then some (a.id, q) else none) = some (x, q)
    rw [if_pos ⟨hw1, hw2⟩, hx]

/-- Rows inherit the strictly increasing id order of the table. -/
theorem parentRows_sorted (arts : List Article) (sid : Nat) (t : Int)
    (h : idsSorted arts) :
    (parentRows arts sid t).Pairwise (fun r s => r.1 < s.1) := by
  unfold parentRows
  refine List.Pairwise.filterMap _ ?_ h
  intro a b hab x hx y hy
  have hxa : x.1 = a.id := by
    by_cases h1 : (a.source_id == sid && a.parent_article_id.isNone && a.description.isSome) = true
    · rw [if_pos h1] at hx
      cases hpub : a.published_at with
      | none => rw [hpub] at hx; cases hx
      | some q =>
        rw [hpub] at hx
        have hx2 : (if t - WINDOW_SEC ≤ q ∧ q ≤ t + WINDOW_SEC
            then some (a.id, q) else none) = some x := hx
        by_cases h2 : t - WINDOW_SEC ≤ q ∧ q ≤ t + WINDOW_SEC
        · rw [if_pos h2] at hx2
          exact (congrArg Prod.fst (Option.some.inj hx2)).symm
        · rw [if_neg h2] at hx2; cases hx2
    · rw [if_neg h1] at hx; cases hx
  have hyb : y.1 = b.id := by
    by_cases h1 : (b.source_id == sid && b.parent_article_id.isNone && b.description.isSome) = true
    · rw [if_pos h1] at hy
      cases hpub : b.published_at with
      | none => rw [hpub] at hy; cases hy
      | some q =>
        rw [hpub] at hy
        have hy2 : (if t - WINDOW_SEC ≤ q ∧ q ≤ t + WINDOW_SEC
            then some (b.id, q) else none) = some y := hy
        by_cases h2 : t - WINDOW_SEC ≤ q ∧ q ≤ t + WINDOW_SEC
        · rw [if_pos h2] at hy2
          exact (congrArg Prod.fst (Option.some.inj hy2)).symm
        · rw [if_neg h2] at hy2; cases hy2
    · rw [if_neg h1] at hy; cases hy
  rw [hxa, hyb]
  exact hab

/-- A found parent is an unlinked text post of the table (no ordering
hypothesis needed). -/
theorem find_parent_by_time_mem (arts : List Article) (sid : Nat) (t : Int) (pid : Nat)
    (h : find_parent_by_time arts sid t = some pid) :
    ∃ a ∈ arts, a.id = pid ∧ a.parent_article_id = none ∧ a.description.isSome := by
  unfold find_parent_by_time at h
  cases hrows : parentRows arts sid t with
  | nil => rw [hrows] at h; cases h
  | cons r rs =>
    rw [hrows] at h
    have hmem := minByFirst_mem (fun x => |x.2 - t|) r rs
    rw [← hrows] at hmem
    obtain ⟨a, ha, haid, hapub, hcand⟩ :=
      (parentRows_mem arts sid t _ _).mp hmem
    refine ⟨a, ha, ?_, hcand.2.1, hcand.2.2.1⟩
    rw [haid]
    exact Option.some.inj h

/-- The heart of claim C7: on a table with strictly increasing ids,
`find_parent_by_time` returns the candidate with minimal absolute time
distance, and among equidistant candidates the one with the lowest id. -/
theorem find_parent_by_time_spec (arts : List Article) (sid : Nat) (t : Int) (pid : Nat)
    (hs : idsSorted arts) (h : find_parent_by_time arts sid t = some pid) :
    ∃ a ∈ arts, a.id = pid ∧ parentCandidate a sid t
      ∧ ∀ b ∈ arts, parentCandidate b sid t →
          candDist a t ≤ candDist b t ∧ (candDist b t = candDist a t → a.id ≤ b.id) := by
  unfold find_parent_by_time at h
  cases hrows : parentRows arts sid t with
  | nil => rw [hrows] at h; cases h
  | cons r rs =>
    rw [hrows] at h
    have hpid := Option.some.inj h
    have hmem := minByFirst_mem (fun x => |x.2 - t|) r rs
    rw [← hrows] at hmem
    obtain ⟨a, ha, haid, hapub, hacand⟩ := (parentRows_mem arts sid t _ _).mp hmem
    have hsorted := parentRows_sorted arts sid t hs
    rw [hrows] at hsorted
    obtain ⟨hmin, htie⟩ := minByFirst_spec (fun x => |x.2 - t|) Prod.fst rs r hsorted
    have hdista : candDist a t = |(minByFirst (fun x => |x.2 - t|) r rs).2 - t| := by
      unfold candDist
      rw [hapub]
      rfl
    refine ⟨a, ha, by rw [haid]; exact hpid, hacand, ?_⟩
    intro b hb hbcand
    obtain ⟨pb, hpb, hw1, hw2⟩ := hbcand.2.2.2
    have hrowb : (b.id, pb) ∈ parentRows arts sid t :=
      (parentRows_mem arts sid t _ _).mpr ⟨b, hb, rfl, hpb, hbcand⟩
    rw [hrows] at hrowb
    have hdistb : candDist b t = |pb - t| := by
      unfold candDist
      rw [hpb]
      rfl
    constructor
    · rw [hdista, hdistb]
      exact hmin (b.id, pb) hrowb
    · intro hdeq
      rw [hdistb, hdista] at hdeq
      have := htie (b.id, pb) hrowb hdeq
      rw [haid]
      exact this

/-- When `find_parent_by_time` finds nothing, no candidate exists. -/
theorem find_parent_by_time_none (arts : List Article) (sid : Nat) (t : Int)
    (h : find_parent_by_time arts sid t = none) :
    ∀ b ∈ arts, ¬ parentCandidate b sid t := by
  intro b hb hcand
  obtain ⟨pb, hpb, hw1, hw2⟩ := hcand.2.2.2
  have hrow : (b.id, pb) ∈ parentRows arts sid t :=
    (parentRows_mem arts sid t _ _).mpr ⟨b, hb, rfl, hpb, hcand⟩
  unfold find_parent_by_time at h
  cases hrows : parentRows arts sid t with
  | nil => rw [hrows] at hrow; cases hrow
  | cons r rs => rw [hrows] at h; cases h

/-- Appending a fresh-id row keeps ids strictly increasing. -/
theorem idsSorted_append (arts : List Article) (art : Article) (n : Nat)
    (hs : idsSorted arts) (hb : ∀ a ∈ arts, a.id < n) (hid : art.id = n) :
    idsSorted (arts ++ [art]) := by
  unfold idsSorted at hs ⊢
  rw [List.pairwise_append]
  refine ⟨hs, List.pairwise_singleton _ _, ?_⟩
  intro a ha b hbm
  rcases List.mem_singleton.mp hbm with rfl
  rw [hid]
  exact hb a ha

/-- C7: a newly inserted media-only orphan is attached to the unlinked
text-post candidate of the same source within the ±`WINDOW_SEC` window
whose absolute time distance is minimal, with ties broken by lowest id;
with no candidate in the window it stays unlinked. -/
theorem orphan_attached_to_nearest_parent :
    ∀ (channel : String) (source_id : Nat) (now t : Int) (db : Db) (msg : TgMsg),
      idsSorted db.articles →
      idsBelow db →
      existsMatch db.articles source_id (msg_to_article_fields msg channel now).guid
        (msg_to_article_fields msg channel now).link = false →
      pyStrip msg.message = "" → msg.hasMedia = true → msg.date = some t →
      ∃ db', process_tg_message channel source_id now db msg = .ok (db', 1)
        ∧ ∃ c ∈ db'.articles, c.id = db.nextId
          ∧ ((∀ b ∈ db.articles, ¬ parentCandidate b source_id t) →
              c.parent_article_id = none)
          ∧ ((∃ b ∈ db.articles, parentCandidate b source_id t) →
              c.parent_article_id.isSome)
          ∧ (∀ pid, c.parent_article_id = some pid →
              ∃ a ∈ db.articles, a.id = pid ∧ parentCandidate a source_id t
                ∧ ∀ b ∈ db.articles, parentCandidate b source_id t →
                    candDist a t ≤ candDist b t
                    ∧ (candDist b t = candDist a t → a.id ≤ b.id)) := by
  intro channel source_id now t db msg hs hbelow hex hempty hmedia hdate
  have hguid : db.articles.any (fun a => a.source_id == source_id
      && a.guid == (msg_to_article_fields msg channel now).guid) = false := by
    unfold existsMatch at hex
    rw [List.any_eq_false] at hex ⊢
    intro a ha
    have h1 := hex a ha
    cases hsrc : (a.source_id == source_id) <;>
      cases hg : (a.guid == (msg_to_article_fields msg channel now).guid) <;>
        simp_all
  have htextb : (pyStrip msg.message != "") = false := by simp [hempty]
  have hfdesc : (msg_to_article_fields msg channel now).description = none := by
    simp [msg_to_article_fields, hempty]
  have hftitle : (msg_to_article_fields msg channel now).title = tgLink channel msg.id := by
    simp [msg_to_article_fields, hempty, pyLen]
  have hchildv : is_child msg (msg_to_article_fields msg channel now).title
      (msg_to_article_fields msg channel now).description channel = true := by
    unfold is_child
    rw [htextb, hmedia, hfdesc, hftitle]
    simp
  have hpub : (msg_to_article_fields msg channel now).published_at = some t := by
    simp [msg_to_article_fields, hdate]
  unfold process_tg_message
  simp only [hex, hguid, htextb, hchildv, hpub, Bool.false_eq_true, if_false, reduceIte]
  set art : Article :=
    { id := db.nextId, source_id := source_id
      title := (msg_to_article_fields msg channel now).title
      link := (msg_to_article_fields msg channel now).link
      description := (msg_to_article_fields msg channel now).description
      guid := (msg_to_article_fields msg channel now).guid
      published_at := some t
      fetched_at := now, parent_article_id := none } with hart
  have hartdesc : art.description = none := by rw [hart]; exact hfdesc
  have hsorted1 : idsSorted (db.articles ++ [art]) :=
    idsSorted_append db.articles art db.nextId hs hbelow (by rw [hart])
  have hcand_transfer : ∀ b ∈ db.articles ++ [art], parentCandidate b source_id t →
      b ∈ db.articles := by
    intro b hbm hbc
    rcases List.mem_append.mp hbm with hbl | hbr
    · exact hbl
    · exfalso
      rcases List.mem_singleton.mp hbr with rfl
      have := hbc.2.2.1
      rw [hartdesc] at this
      simp at this
  split
  case _ pid0 hfind =>
    refine ⟨_, rfl, ?_⟩
    obtain ⟨a0, ha0, ha0id, ha0cand, ha0min⟩ :=
      find_parent_by_time_spec (db.articles ++ [art]) source_id t pid0 hsorted1 hfind
    have hattach : (attach_children (db.articles ++ [art]) pid0 [db.nextId]).1
        = attachUpdate (db.articles ++ [art]) pid0 [db.nextId] := by
      unfold attach_children
      rw [if_neg (by simp)]
    have hartup : (fun a => if ([db.nextId].contains a.id && a.parent_article_id.isNone) = true
        then { a with parent_article_id := some pid0 } else a) art
        = { art with parent_article_id := some pid0 } := by
      rw [hart]
      simp
    refine ⟨{ art with parent_article_id := some pid0 }, ?_, by rw [hart], ?_, ?_, ?_⟩
    · show _ ∈ (attach_children (db.articles ++ [art]) pid0 [db.nextId]).1
      rw [hattach]
      unfold attachUpdate
      rw [← hartup]
      exact List.mem_map_of_mem _ (List.mem_append_right _ (List.mem_singleton_self _))
    · intro hnone
      exfalso
      exact hnone a0 (hcand_transfer a0 ha0 ha0cand) ha0cand
    · intro _
      rfl
    · intro pid hpid
      have hpideq : pid0 = pid := Option.some.inj hpid
      subst hpideq
      refine ⟨a0, hcand_transfer a0 ha0 ha0cand, ha0id, ha0cand, ?_⟩
      intro b hbm hbc
      exact ha0min b (List.mem_append_left _ hbm) hbc
  case _ hfind =>
    refine ⟨_, rfl, ?_⟩
    refine ⟨art, List.mem_append_right _ (List.mem_singleton_self _), by rw [hart], ?_, ?_, ?_⟩
    · intro _
      rw [hart]
    · intro hsome
      exfalso
      obtain ⟨b, hbm, hbc⟩ := hsome
      exact find_parent_by_time_none _ _ _ hfind b (List.mem_append_left _ hbm) hbc
    · intro pid hpid
      rw [hart] at hpid
      cases hpid

/-- Strictly increasing ids make the id a key of the table. -/
theorem ids_injective (arts : List Article) (hs : idsSorted arts) :
    ∀ a ∈ arts, ∀ b ∈ arts, a.id = b.id → a = b := by
  unfold idsSorted at hs
  induction arts with
  | nil => intro a ha; cases ha
  | cons x xs ih =>
    rcases List.pairwise_cons.mp hs with ⟨hx, hxs⟩
    intro a ha b hb heq
    rcases List.mem_cons.mp ha with rfl | ha1
    · rcases List.mem_cons.mp hb with rfl | hb1
      · rfl
      · exact absurd heq (by have := hx b hb1; omega)
    · rcases List.mem_cons.mp hb with rfl | hb1
      · exact absurd heq (by have := hx a ha1; omega)
      · exact ih hxs a ha1 b hb1 heq

/-- An id returned by the orphan query belongs to an unlinked media-only
row of the table. -/
theorem orphanQuery_mem (l : List Article) (sid : Nat) (t0 t1 : Int) (x : Nat)
    (hx : x ∈ orphanQuery l sid t0 t1) :
    ∃ a ∈ l, a.id = x ∧ a.parent_article_id = none ∧ a.description = none := by
  unfold orphanQuery at hx
  obtain ⟨a, ha, rfl⟩ := List.mem_map.mp hx
  have hl := (List.mem_filter.mp ha).2
  simp only [Bool.and_eq_true, Option.isNone_iff_eq_none] at hl
  exact ⟨a, (List.mem_filter.mp ha).1, rfl, hl.1.1.1.2, hl.1.1.2⟩

/-- Inserting a fresh article with no parent preserves well-formedness. -/
theorem WF_insert (db : Db) (art : Article)
    (hid : art.id = db.nextId) (hpar : art.parent_article_id = none)
    (hwf : WF db) :
    WF { db with articles := db.articles ++ [art], nextId := db.nextId + 1 } := by
  obtain ⟨hs, hb, h1, h2⟩ := hwf
  refine ⟨idsSorted_append db.articles art db.nextId hs hb hid, ?_, ?_, ?_⟩
  · intro a ha
    show a.id < db.nextId + 1
    rcases List.mem_append.mp ha with hl | hr
    · have := hb a hl; omega
    · rcases List.mem_singleton.mp hr with rfl
      omega
  · intro a ha hsome
    rcases List.mem_append.mp ha with hl | hr
    · exact h1 a hl hsome
    · rcases List.mem_singleton.mp hr with rfl
      rw [hpar] at hsome
      cases hsome
  · intro a ha pid hpid
    rcases List.mem_append.mp ha with hl | hr
    · obtain ⟨b, hbm, hbid, hbdesc⟩ := h2 a hl pid hpid
      exact ⟨b, List.mem_append_left _ hbm, hbid, hbdesc⟩
    · rcases List.mem_singleton.mp hr with rfl
      rw [hpar] at hpid
      cases hpid

/-- The conditional parent update preserves well-formedness as long as
the attached ids denote unlinked media-only rows and the parent id
denotes a text post of the table. -/
theorem WF_attach (db : Db) (pid : Nat) (ids : List Nat)
    (hwf : WF db)
    (hchild : ∀ a ∈ db.articles, ids.contains a.id = true →
      a.parent_article_id = none → a.description = none)
    (hparent : ∃ b ∈ db.articles, b.id = pid ∧ b.description.isSome) :
    WF { db with articles := attachUpdate db.articles pid ids } := by
  obtain ⟨hs, hb, h1, h2⟩ := hwf
  have hfid : ∀ a : Article, (if (ids.contains a.id && a.parent_article_id.isNone) = true
      then { a with parent_article_id := some pid } else a).id = a.id := by
    intro a; split <;> rfl
  have hfdesc : ∀ a : Article, (if (ids.contains a.id && a.parent_article_id.isNone) = true
      then { a with parent_article_id := some pid } else a).description = a.description := by
    intro a; split <;> rfl
  refine ⟨?_, ?_, ?_, ?_⟩
  · unfold idsSorted attachUpdate
    rw [List.pairwise_map]
    refine hs.imp ?_
    intro a b hab
    simpa only [hfid] using hab
  · intro a ha
    obtain ⟨a0, ha0, rfl⟩ := List.mem_map.mp ha
    rw [hfid a0]
    exact hb a0 ha0
  · intro a ha hsome
    obtain ⟨a0, ha0, rfl⟩ := List.mem_map.mp ha
    rw [hfdesc a0]
    by_cases hc : (ids.contains a0.id && a0.parent_article_id.isNone) = true
    · simp only [Bool.and_eq_true, Option.isNone_iff_eq_none] at hc
      exact hchild a0 ha0 hc.1 hc.2
    · rw [if_neg hc] at hsome
      exact h1 a0 ha0 hsome
  · intro a ha q hq
    obtain ⟨a0, ha0, rfl⟩ := List.mem_map.mp ha
    by_cases hc : (ids.contains a0.id && a0.parent_article_id.isNone) = true
    · rw [if_pos hc] at hq
      have hqpid : q = pid := (Option.some.inj hq).symm
      subst hqpid
      obtain ⟨b, hbm, hbid, hbdesc⟩ := hparent
      refine ⟨(if (ids.contains b.id && b.parent_article_id.isNone) = true
          then { b with parent_article_id := some q } else b), ?_, ?_, ?_⟩
      · exact List.mem_map_of_mem _ hbm
      · rw [hfid b]; exact hbid
      · rw [hfdesc b]; exact hbdesc
    · rw [if_neg hc] at hq
      obtain ⟨b, hbm, hbid, hbdesc⟩ := h2 a0 ha0 q hq
      refine ⟨(if (ids.contains b.id && b.parent_article_id.isNone) = true
          then { b with parent_article_id := some pid } else b), ?_, ?_, ?_⟩
      · exact List.mem_map_of_mem _ hbm
      · rw [hfid b]; exact hbid
      · rw [hfdesc b]; exact hbdesc

/-- Well-formedness only depends on the articles and the serial counter. -/
theorem WF_congr (x y : Db) (ha : x.articles = y.articles) (hn : x.nextId = y.nextId)
    (h : WF x) : WF y := by
  obtain ⟨h1, h2, h3, h4⟩ := h
  refine ⟨?_, ?_, ?_, ?_⟩
  · unfold idsSorted at h1 ⊢; rwa [← ha]
  · unfold idsBelow at h2 ⊢; rwa [← ha, ← hn]
  · unfold childrenMediaOnly at h3 ⊢; rwa [← ha]
  · unfold parentsHaveText at h4 ⊢; rwa [← ha]

/-- Processing one Telegram message preserves well-formedness. -/
theorem process_tg_message_wf (channel : String) (source_id : Nat) (now : Int)
    (db : Db) (msg : TgMsg) (db' : Db) (k : Nat)
    (hwf : WF db) (h : process_tg_message channel source_id now db msg = .ok (db', k)) :
    WF db' := by
  unfold process_tg_message at h
  dsimp only at h
  set f := msg_to_article_fields msg channel now with hf
  set art : Article :=
    { id := db.nextId, source_id := source_id, title := f.title, link := f.link
      description := f.description, guid := f.guid, published_at := f.published_at
      fetched_at := now, parent_article_id := none } with hart
  set db1 : Db := { db with articles := db.articles ++ [art], nextId := db.nextId + 1 }
    with hdb1
  have hwf1 : WF db1 := WF_insert db art rfl rfl hwf
  have hs1 : idsSorted db1.articles := hwf1.1
  split at h
  · injection h with h1
    rw [Prod.mk.injEq] at h1
    rw [← h1.1]
    exact hwf
  split at h
  · injection h with h1
    rw [Prod.mk.injEq] at h1
    rw [← h1.1]
    exact hwf
  split at h
  · -- text-post branch
    rename_i htext
    split at h
    · cases h
    · rename_i t hpub
      injection h with h1
      rw [Prod.mk.injEq] at h1
      rw [← h1.1]
      have hne : pyStrip msg.message ≠ "" := by simpa using htext
      have hdesc : f.description.isSome := by
        rw [hf]
        show (if pyStrip msg.message == "" then (none : Option String)
          else some (pyStrip msg.message)).isSome = true
        rw [if_neg (by simpa using hne)]
        rfl
      by_cases ho : (orphanQuery db1.articles source_id (t - WINDOW_SEC) (t + WINDOW_SEC)).isEmpty = true
      · rw [if_pos ho]
        exact WF_congr db1 _ rfl rfl hwf1
      · rw [if_neg ho]
        refine WF_congr { db1 with articles := (attachUpdate db1.articles db.nextId
            (orphanQuery db1.articles source_id (t - WINDOW_SEC) (t + WINDOW_SEC))) } _ ?_ rfl
          (WF_attach db1 db.nextId _ hwf1 ?_ ?_)
        · show attachUpdate db1.articles db.nextId _
            = (attach_children db1.articles db.nextId _).1
          unfold attach_children
          rw [if_neg (by simpa using ho)]
        · intro a ha hc _
          obtain ⟨a0, ha0, ha0id, _, ha0desc⟩ :=
            orphanQuery_mem db1.articles source_id _ _ a.id (List.mem_of_elem_eq_true hc)
          have : a0 = a := ids_injective db1.articles hs1 a0 ha0 a ha ha0id
          rw [← this]
          exact ha0desc
        · refine ⟨art, List.mem_append_right _ (List.mem_singleton_self _), rfl, hdesc⟩
  split at h
  · -- media-only child branch
    rename_i hchild
    have hcdesc : f.description = none := by
      unfold is_child at hchild
      simp only [Bool.and_eq_true, beq_iff_eq] at hchild
      exact hchild.1.2
    split at h
    · cases h
    · rename_i t hpub
      split at h
      · rename_i pid hfind
        injection h with h1
        rw [Prod.mk.injEq] at h1
        rw [← h1.1]
        refine WF_congr { db1 with articles := attachUpdate db1.articles pid [db.nextId] } _
          ?_ rfl (WF_attach db1 pid [db.nextId] hwf1 ?_ ?_)
        · show attachUpdate db1.articles pid [db.nextId]
            = (attach_children db1.articles pid [db.nextId]).1
          unfold attach_children
          rw [if_neg (by simp)]
        · intro a ha hc _
          have haid : a.id = db.nextId := by
            have := List.mem_of_elem_eq_true hc
            simpa using this
          have : art = a := ids_injective db1.articles hs1 art
            (List.mem_append_right _ (List.mem_singleton_self _)) a ha haid.symm
          rw [← this]
          exact hcdesc
        · obtain ⟨b, hbm, hbid, _, hbdesc⟩ := find_parent_by_time_mem db1.articles source_id t pid hfind
          exact ⟨b, hbm, hbid, hbdesc⟩
      · injection h with h1
        rw [Prod.mk.injEq] at h1
        rw [← h1.1]
        exact hwf1
  · injection h with h1
    rw [Prod.mk.injEq] at h1
    rw [← h1.1]
    exact hwf1

/-- Processing one VK post preserves well-formedness. -/
theorem process_vk_post_wf (source_id : Nat) (owner_id : Int) (now : Int)
    (db : Db) (post : VkPost) (db' : Db) (k : Nat)
    (hwf : WF db) (h : process_vk_post source_id owner_id now db post = (db', k)) :
    WF db' := by
  unfold process_vk_post at h
  split at h
  · obtain ⟨h1, _⟩ := Prod.mk.inj h
    rw [← h1]; exact hwf
  dsimp only at h
  split at h
  · obtain ⟨h1, _⟩ := Prod.mk.inj h
    rw [← h1]; exact hwf
  split at h
  · obtain ⟨h1, _⟩ := Prod.mk.inj h
    rw [← h1]; exact hwf
  split at h
  · obtain ⟨h1, _⟩ := Prod.mk.inj h
    rw [← h1]; exact hwf
  · obtain ⟨h1, _⟩ := Prod.mk.inj h
    rw [← h1]
    exact WF_insert db _ rfl rfl hwf

/-- Processing one RSS entry preserves well-formedness. -/
theorem process_rss_entry_wf (source_id : Nat) (now : Int)
    (db : Db) (entry : RssEntry) (db' : Db) (k : Nat)
    (hwf : WF db) (h : process_rss_entry source_id now db entry = (db', k)) :
    WF db' := by
  unfold process_rss_entry at h
  dsimp only at h
  split at h
  · obtain ⟨h1, _⟩ := Prod.mk.inj h
    rw [← h1]; exact hwf
  split at h
  · obtain ⟨h1, _⟩ := Prod.mk.inj h
    rw [← h1]; exact hwf
  · obtain ⟨h1, _⟩ := Prod.mk.inj h
    rw [← h1]
    exact WF_insert db _ rfl rfl hwf

/-- A whole Telegram pass preserves well-formedness, whatever events the
iteration delivers. -/
theorem process_tg_source_wf (channel : String) (source_id : Nat) (now : Int) :
    ∀ (events : List TgEvent) (db : Db) (acc : Nat), WF db →
      WF (process_tg_source channel source_id now db events acc).db := by
  intro events
  induction events with
  | nil => intro db acc hwf; exact hwf
  | cons e rest ih =>
    intro db acc hwf
    cases e with
    | msg m =>
      simp only [process_tg_source]
      cases hm : process_tg_message channel source_id now db m with
      | ok p =>
        exact ih p.1 (acc + p.2) (process_tg_message_wf channel source_id now db m p.1 p.2 hwf hm)
      | error e => exact hwf
    | floodErr s => exact hwf
    | rpcErr => exact hwf
    | unexpectedErr => exact hwf

/-- A whole VK pass preserves well-formedness. -/
theorem process_vk_source_wf (source_id : Nat) (owner_id : Int) (now : Int) :
    ∀ (posts : List VkPost) (p : Db × Nat), WF p.1 →
      WF (posts.foldl (fun acc post =>
        let r := process_vk_post source_id owner_id now acc.1 post
        (r.1, acc.2 + r.2)) p).1 := by
  intro posts
  induction posts with
  | nil => intro p hwf; exact hwf
  | cons post rest ih =>
    intro p hwf
    simp only [List.foldl_cons]
    exact ih _ (process_vk_post_wf source_id owner_id now p.1 post _ _ hwf rfl)

/-- A whole RSS pass preserves well-formedness. -/
theorem process_rss_source_wf (source_id : Nat) (now : Int) :
    ∀ (entries : List RssEntry) (p : Db × Nat), WF p.1 →
      WF (entries.foldl (fun acc e =>
        let r := process_rss_entry source_id now acc.1 e
        (r.1, acc.2 + r.2)) p).1 := by
  intro entries
  induction entries with
  | nil => intro p hwf; exact hwf
  | cons e rest ih =>
    intro p hwf
    simp only [List.foldl_cons]
    exact ih _ (process_rss_entry_wf source_id now p.1 e _ _ hwf rfl)

/-- Every pass preserves well-formedness. -/
theorem runPass_wf (db : Db) (p : Pass) (hwf : WF db) : WF (runPass db p) := by
  cases p with
  | tg channel source_id now events =>
    exact process_tg_source_wf channel source_id now events db 0 hwf
  | vk source_id owner_id now posts =>
    exact process_vk_source_wf source_id owner_id now posts (db, 0) hwf
  | rss source_id now entries =>
    exact process_rss_source_wf source_id now entries (db, 0) hwf

/-- Any sequence of passes preserves well-formedness. -/
theorem runPasses_wf : ∀ (ps : List Pass) (db : Db), WF db → WF (runPasses db ps) := by
  intro ps
  induction ps with
  | nil => intro db hwf; exact hwf
  | cons p rest ih =>
    intro db hwf
    exact ih (runPass db p) (runPass_wf db p hwf)

/-- Well-formedness forces parent/child depth at most one. -/
theorem WF_depth (db : Db) (hwf : WF db) : depthAtMostOne db.articles := by
  obtain ⟨hs, _, h1, h2⟩ := hwf
  intro a ha b hb hab
  obtain ⟨c, hc, hcid, hcdesc⟩ := h2 a ha b.id hab
  have hcb : c = b := ids_injective db.articles hs c hc b hb hcid
  subst hcb
  cases hp : c.parent_article_id with
  | none => rfl
  | some q =>
    have := h1 c hb (by rw [hp]; rfl)
    rw [this] at hcdesc
    cases hcdesc

/-- C2: after any sequence of fetch and correlation passes starting from
a well-formed state, the parent/child relation over articles has depth
at most one: an article whose parent is set is never itself a parent,
and a child is never assigned children. -/
theorem parent_child_depth_at_most_one (ps : List Pass) (db : Db) (hwf : WF db) :
    WF (runPasses db ps) ∧ depthAtMostOne (runPasses db ps).articles :=
  ⟨runPasses_wf ps db hwf, WF_depth _ (runPasses_wf ps db hwf)⟩

/-- C2 witness: the depth invariant applied to a concrete two-cycle run
from the empty database, ingesting the text post and the orphan twice. -/
theorem parent_child_depth_at_most_one_witness :
    WF (runPasses emptyDb [.tg "c" 1 1000 [.msg tgTextMsg1, .msg tgOrphanMsg],
        .tg "c" 1 2000 [.msg tgTextMsg1, .msg tgOrphanMsg]])
    ∧ depthAtMostOne (runPasses emptyDb [.tg "c" 1 1000 [.msg tgTextMsg1, .msg tgOrphanMsg],
        .tg "c" 1 2000 [.msg tgTextMsg1, .msg tgOrphanMsg]]).articles :=
  parent_child_depth_at_most_one _ emptyDb
    ⟨List.Pairwise.nil, fun a ha => absurd ha (List.not_mem_nil a),
     fun a ha => absurd ha (List.not_mem_nil a), fun a ha => absurd ha (List.not_mem_nil a)⟩

/-- The conditional parent update does not change any dedup key. -/
theorem attachUpdate_keys (arts : List Article) (pid : Nat) (ids : List Nat) :
    (attachUpdate arts pid ids).map articleKey = arts.map articleKey := by
  unfold attachUpdate
  rw [List.map_map]
  apply List.map_congr_left
  intro a _
  show articleKey (if (ids.contains a.id && a.parent_article_id.isNone) = true
    then { a with parent_article_id := some pid } else a) = articleKey a
  split <;> rfl

/-- Mapping before `any` composes with the predicate. -/
theorem any_map_key (l : List Article) (p : Nat × String × String → Bool) :
    (l.map articleKey).any p = l.any (fun a => p (articleKey a)) := by
  induction l with
  | nil => rfl
  | cons x xs ih => simp [List.any_cons, ih]

/-- The dedup select only looks at the key columns. -/
theorem existsMatch_keys (arts : List Article) (sid : Nat) (g l : String) :
    existsMatch arts sid g l
      = (arts.map articleKey).any (fun k => k.1 == sid && (k.2.1 == g || k.2.2 == l)) := by
  unfold existsMatch
  rw [any_map_key]
  rfl

/-- The dedup select distributes over appended rows. -/
theorem existsMatch_append (l1 l2 : List Article) (sid : Nat) (g lk : String) :
    existsMatch (l1 ++ l2) sid g lk = (existsMatch l1 sid g lk || existsMatch l2 sid g lk) := by
  unfold existsMatch
  rw [List.any_append]

/-- A key extension cannot lose a dedup hit. -/
theorem existsMatch_mono_keys (l1 l2 : List Article) (sid : Nat) (g lk : String)
    (ks : List (Nat × String × String))
    (hk : l2.map articleKey = l1.map articleKey ++ ks)
    (h : existsMatch l1 sid g lk = true) : existsMatch l2 sid g lk = true := by
  rw [existsMatch_keys] at h ⊢
  rw [hk, List.any_append, h, Bool.true_or]

/-- A key appended to the table is found by the dedup select. -/
theorem existsMatch_of_key_append (l2 l1 : List Article) (sid : Nat) (g lk : String)
    (hk : l2.map articleKey = l1.map articleKey ++ [(sid, g, lk)]) :
    existsMatch l2 sid g lk = true := by
  rw [existsMatch_keys, hk, List.any_append]
  have hone : ([(sid, g, lk)] : List (Nat × String × String)).any
      (fun k => k.1 == sid && (k.2.1 == g || k.2.2 == lk)) = true := by simp
  rw [hone, Bool.or_true]

/-- One-message step lemma: processing a message either skips it because
its key already hits the dedup select (state unchanged, nothing added),
or appends exactly the message's own key, which the select had just
checked absent.  The second `ON CONFLICT` guard can never fire after the
select, because a guid hit already satisfies the select. -/
theorem process_tg_message_step (channel : String) (source_id : Nat) (now : Int)
    (db : Db) (msg : TgMsg) (db' : Db) (k : Nat)
    (h : process_tg_message channel source_id now db msg = .ok (db', k)) :
    (db' = db ∧ k = 0
      ∧ existsMatch db.articles source_id (msg_to_article_fields msg channel now).guid
          (msg_to_article_fields msg channel now).link = true)
    ∨ (db'.articles.map articleKey = db.articles.map articleKey
          ++ [(source_id, (msg_to_article_fields msg channel now).guid,
              (msg_to_article_fields msg channel now).link)]
        ∧ existsMatch db.articles source_id (msg_to_article_fields msg channel now).guid
            (msg_to_article_fields msg channel now).link = false) := by
  unfold process_tg_message at h
  dsimp only at h
  set f := msg_to_article_fields msg channel now with hf
  set art : Article :=
    { id := db.nextId, source_id := source_id, title := f.title, link := f.link
      description := f.description, guid := f.guid, published_at := f.published_at
      fetched_at := now, parent_article_id := none } with hart
  have hins : (db.articles ++ [art]).map articleKey
      = db.articles.map articleKey ++ [(source_id, f.guid, f.link)] := by
    rw [List.map_append]
    rfl
  split at h
  · rename_i hex
    injection h with h1
    rw [Prod.mk.injEq] at h1
    exact Or.inl ⟨h1.1.symm, h1.2.symm, hex⟩
  split at h
  · -- unreachable: a guid hit already satisfies the dedup select
    rename_i hex hguid
    exfalso
    apply hex
    obtain ⟨a, ha, hc⟩ := List.any_eq_true.mp hguid
    unfold existsMatch
    refine List.any_eq_true.mpr ⟨a, ha, ?_⟩
    rw [Bool.and_eq_true] at hc ⊢
    exact ⟨hc.1, by rw [Bool.or_eq_true]; exact Or.inl hc.2⟩
  rename_i hex hguid
  have hexf : existsMatch db.articles source_id f.guid f.link = false := by
    cases hb : existsMatch db.articles source_id f.guid f.link with
    | false => rfl
    | true => exact absurd hb hex
  split at h
  · split at h
    · cases h
    · rename_i t hpub
      injection h with h1
      rw [Prod.mk.injEq] at h1
      rw [← h1.1]
      refine Or.inr ⟨?_, hexf⟩
      show (if (orphanQuery (db.articles ++ [art]) source_id (t - WINDOW_SEC)
          (t + WINDOW_SEC)).isEmpty = true then db.articles ++ [art]
          else (attach_children (db.articles ++ [art]) db.nextId
            (orphanQuery (db.articles ++ [art]) source_id (t - WINDOW_SEC)
              (t + WINDOW_SEC))).1).map articleKey = _
      split
      · exact hins
      · unfold attach_children
        rw [if_neg (by rename_i ho; simpa using ho)]
        rw [attachUpdate_keys]
        exact hins
  split at h
  · split at h
    · cases h
    · rename_i t hpub
      split at h
      · rename_i pid hfind
        injection h with h1
        rw [Prod.mk.injEq] at h1
        rw [← h1.1]
        refine Or.inr ⟨?_, hexf⟩
        show ((attach_children (db.articles ++ [art]) pid [db.nextId]).1).map articleKey = _
        unfold attach_children
        rw [if_neg (by simp)]
        rw [attachUpdate_keys]
        exact hins
      · injection h with h1
        rw [Prod.mk.injEq] at h1
        rw [← h1.1]
        exact Or.inr ⟨hins, hexf⟩
  · injection h with h1
    rw [Prod.mk.injEq] at h1
    rw [← h1.1]
    exact Or.inr ⟨hins, hexf⟩

/-- After a message is processed without error, its key hits the dedup
select. -/
theorem process_tg_message_presence (channel : String) (source_id : Nat) (now : Int)
    (db : Db) (msg : TgMsg) (db' : Db) (k : Nat)
    (h : process_tg_message channel source_id now db msg = .ok (db', k)) :
    existsMatch db'.articles source_id (msg_to_article_fields msg channel now).guid
      (msg_to_article_fields msg channel now).link = true := by
  rcases process_tg_message_step channel source_id now db msg db' k h with
    ⟨rfl, _, hex⟩ | ⟨happ, _⟩
  · exact hex
  · exact existsMatch_of_key_append _ _ _ _ _ happ

/-- Processing a message only ever appends dedup keys. -/
theorem process_tg_message_keys_ext (channel : String) (source_id : Nat) (now : Int)
    (db : Db) (msg : TgMsg) (db' : Db) (k : Nat)
    (h : process_tg_message channel source_id now db msg = .ok (db', k)) :
    ∃ ks, db'.articles.map articleKey = db.articles.map articleKey ++ ks := by
  rcases process_tg_message_step channel source_id now db msg db' k h with
    ⟨rfl, _, _⟩ | ⟨happ, _⟩
  · exact ⟨[], (List.append_nil _).symm⟩
  · exact ⟨_, happ⟩

/-- A message whose key is already present is skipped: the state is
returned unchanged with nothing added. -/
theorem process_tg_message_skip (channel : String) (source_id : Nat) (now : Int)
    (db : Db) (msg : TgMsg)
    (hex : existsMatch db.articles source_id (msg_to_article_fields msg channel now).guid
      (msg_to_article_fields msg channel now).link = true) :
    process_tg_message channel source_id now db msg = .ok (db, 0) := by
  unfold process_tg_message
  dsimp only
  rw [hex, if_pos rfl]

/-- A whole Telegram pass only ever appends dedup keys. -/
theorem process_tg_source_keys_ext (channel : String) (source_id : Nat) (now : Int) :
    ∀ (events : List TgEvent) (db : Db) (acc : Nat),
      ∃ ks, (process_tg_source channel source_id now db events acc).db.articles.map articleKey
        = db.articles.map articleKey ++ ks := by
  intro events
  induction events with
  | nil => intro db acc; exact ⟨[], (List.append_nil _).symm⟩
  | cons e rest ih =>
    intro db acc
    cases e with
    | msg m =>
      simp only [process_tg_source]
      cases hm : process_tg_message channel source_id now db m with
      | ok p =>
        obtain ⟨ks1, h1⟩ := process_tg_message_keys_ext channel source_id now db m p.1 p.2
          (by rw [hm])
        obtain ⟨ks2, h2⟩ := ih p.1 (acc + p.2)
        exact ⟨ks1 ++ ks2, by rw [h2, h1, List.append_assoc]⟩
      | error e => exact ⟨[], (List.append_nil _).symm⟩
    | floodErr s => exact ⟨[], (List.append_nil _).symm⟩
    | rpcErr => exact ⟨[], (List.append_nil _).symm⟩
    | unexpectedErr => exact ⟨[], (List.append_nil _).symm⟩

/-- After a completed Telegram pass, every delivered message's key hits
the dedup select on the final state. -/
theorem process_tg_source_presence (channel : String) (source_id : Nat) (now : Int) :
    ∀ (events : List TgEvent) (db : Db) (acc : Nat) (m : TgMsg),
      TgEvent.msg m ∈ events →
      (process_tg_source channel source_id now db events acc).completed = true →
      existsMatch (process_tg_source channel source_id now db events acc).db.articles source_id
        (msg_to_article_fields m channel now).guid
        (msg_to_article_fields m channel now).link = true := by
  intro events
  induction events with
  | nil => intro db acc m hm; cases hm
  | cons e rest ih =>
    intro db acc m hm hcompl
    cases e with
    | msg m0 =>
      simp only [process_tg_source] at hcompl ⊢
      cases hmsg : process_tg_message channel source_id now db m0 with
      | ok p =>
        rw [hmsg] at hcompl
        rcases List.mem_cons.mp hm with heq | hmem
        · have hm0 : m = m0 := by injection heq
          subst hm0
          have hpres := process_tg_message_presence channel source_id now db m p.1 p.2
            (by rw [hmsg])
          obtain ⟨ks, hks⟩ := process_tg_source_keys_ext channel source_id now rest p.1 (acc + p.2)
          exact existsMatch_mono_keys _ _ _ _ _ ks hks hpres
        · exact ih p.1 (acc + p.2) m hmem hcompl
      | error e =>
        rw [hmsg] at hcompl
        exact absurd hcompl Bool.false_ne_true
    | floodErr s =>
      simp only [process_tg_source] at hcompl
      exact absurd hcompl Bool.false_ne_true
    | rpcErr =>
      simp only [process_tg_source] at hcompl
      exact absurd hcompl Bool.false_ne_true
    | unexpectedErr =>
      simp only [process_tg_source] at hcompl
      exact absurd hcompl Bool.false_ne_true

/-- A pass over messages whose keys are all present skips everything:
final state unchanged, zero added, no sleeps, completed. -/
theorem process_tg_source_skip_all (channel : String) (source_id : Nat) (now2 : Int) :
    ∀ (msgs : List TgMsg) (db : Db) (acc : Nat),
      (∀ m ∈ msgs, existsMatch db.articles source_id
        (msg_to_article_fields m channel now2).guid
        (msg_to_article_fields m channel now2).link = true) →
      process_tg_source channel source_id now2 db (msgs.map .msg) acc = ⟨db, acc, [], true⟩ := by
  intro msgs
  induction msgs with
  | nil => intro db acc _; rfl
  | cons m rest ih =>
    intro db acc h
    simp only [List.map_cons, process_tg_source]
    rw [process_tg_message_skip channel source_id now2 db m (h m (List.mem_cons_self _ _))]
    simpa using ih db acc (fun m' hm' => h m' (List.mem_cons_of_mem _ hm'))

/-- One-post step lemma for the VK fetcher, mirroring the Telegram one:
a falsy id is skipped; a present key is skipped; otherwise exactly the
post's key, checked absent, is appended. -/
theorem process_vk_post_step (source_id : Nat) (owner_id : Int) (now : Int)
    (db : Db) (post : VkPost) (db' : Db) (k : Nat)
    (h : process_vk_post source_id owner_id now db post = (db', k)) :
    ((post.id = none ∨ post.id = some 0) ∧ db' = db ∧ k = 0)
    ∨ (∃ pid, post.id = some pid ∧ pid ≠ 0
        ∧ ((db' = db ∧ k = 0
            ∧ existsMatch db.articles source_id (vkGuid owner_id pid)
                (vkLink owner_id pid) = true)
          ∨ (db'.articles.map articleKey = db.articles.map articleKey
                ++ [(source_id, vkGuid owner_id pid, vkLink owner_id pid)]
              ∧ existsMatch db.articles source_id (vkGuid owner_id pid)
                  (vkLink owner_id pid) = false))) := by
  unfold process_vk_post at h
  cases hid : post.id with
  | none =>
    rw [hid] at h
    obtain ⟨h1, h2⟩ := Prod.mk.inj h
    exact Or.inl ⟨Or.inl rfl, h1.symm, h2.symm⟩
  | some pid =>
    rw [hid] at h
    dsimp only at h
    by_cases hz : (pid == 0) = true
    · rw [if_pos hz] at h
      obtain ⟨h1, h2⟩ := Prod.mk.inj h
      refine Or.inl ⟨Or.inr ?_, h1.symm, h2.symm⟩
      rw [beq_iff_eq] at hz
      rw [hz]
    · rw [if_neg hz] at h
      have hnz : pid ≠ 0 := by simpa using hz
      split at h
      · rename_i hex
        obtain ⟨h1, h2⟩ := Prod.mk.inj h
        exact Or.inr ⟨pid, rfl, hnz, Or.inl ⟨h1.symm, h2.symm, hex⟩⟩
      split at h
      · -- unreachable second guard: a guid hit satisfies the select
        rename_i hex hguid
        exfalso
        apply hex
        obtain ⟨a, ha, hc⟩ := List.any_eq_true.mp hguid
        unfold existsMatch
        refine List.any_eq_true.mpr ⟨a, ha, ?_⟩
        rw [Bool.and_eq_true] at hc ⊢
        exact ⟨hc.1, by rw [Bool.or_eq_true]; exact Or.inl hc.2⟩
      · rename_i hex hguid
        have hexf : existsMatch db.articles source_id (vkGuid owner_id pid)
            (vkLink owner_id pid) = false := by
          cases hb : existsMatch db.articles source_id (vkGuid owner_id pid)
              (vkLink owner_id pid) with
          | false => rfl
          | true => exact absurd hb hex
        obtain ⟨h1, _⟩ := Prod.mk.inj h
        refine Or.inr ⟨pid, rfl, hnz, Or.inr ⟨?_, hexf⟩⟩
        rw [← h1, List.map_append]
        rfl

/-- A VK post whose key is present (or whose id is falsy) is skipped. -/
theorem process_vk_post_skip (source_id : Nat) (owner_id : Int) (now : Int)
    (db : Db) (post : VkPost)
    (h : ∀ pid, post.id = some pid → pid ≠ 0 →
      existsMatch db.articles source_id (vkGuid owner_id pid) (vkLink owner_id pid) = true) :
    process_vk_post source_id owner_id now db post = (db, 0) := by
  unfold process_vk_post
  cases hid : post.id with
  | none => rfl
  | some pid =>
    dsimp only
    by_cases hz : (pid == 0) = true
    · rw [if_pos hz]
    · rw [if_neg hz]
      rw [h pid hid (by simpa using hz), if_pos rfl]

/-- One-entry step lemma for the RSS fetcher: incomplete entries are
skipped, present keys are skipped, otherwise exactly the entry's key,
checked absent, is appended. -/
theorem process_rss_entry_step (source_id : Nat) (now : Int)
    (db : Db) (entry : RssEntry) (db' : Db) (k : Nat)
    (h : process_rss_entry source_id now db entry = (db', k)) :
    ((entry.title == "" || entry.link == "" || rssGuid entry == "") = true
      ∧ db' = db ∧ k = 0)
    ∨ ((entry.title == "" || entry.link == "" || rssGuid entry == "") = false
      ∧ ((db' = db ∧ k = 0
          ∧ existsMatch db.articles source_id (rssGuid entry) entry.link = true)
        ∨ (db'.articles.map articleKey = db.articles.map articleKey
              ++ [(source_id, rssGuid entry, entry.link)]
            ∧ existsMatch db.articles source_id (rssGuid entry) entry.link = false))) := by
  unfold process_rss_entry at h
  dsimp only at h
  by_cases hc : (entry.title == "" || entry.link == "" || rssGuid entry == "") = true
  · rw [if_pos hc] at h
    obtain ⟨h1, h2⟩ := Prod.mk.inj h
    exact Or.inl ⟨hc, h1.symm, h2.symm⟩
  · rw [if_neg hc] at h
    have hcf : (entry.title == "" || entry.link == "" || rssGuid entry == "") = false := by
      cases hb : (entry.title == "" || entry.link == "" || rssGuid entry == "") with
      | false => rfl
      | true => exact absurd hb hc
    split at h
    · rename_i hex
      obtain ⟨h1, h2⟩ := Prod.mk.inj h
      exact Or.inr ⟨hcf, Or.inl ⟨h1.symm, h2.symm, hex⟩⟩
    · rename_i hex
      have hexf : existsMatch db.articles source_id (rssGuid entry) entry.link = false := by
        cases hb : existsMatch db.articles source_id (rssGuid entry) entry.link with
        | false => rfl
        | true => exact absurd hb hex
      obtain ⟨h1, _⟩ := Prod.mk.inj h
      refine Or.inr ⟨hcf, Or.inr ⟨?_, hexf⟩⟩
      rw [← h1, List.map_append]
      rfl

/-- An RSS entry that is incomplete, or whose key is present, is
skipped. -/
theorem process_rss_entry_skip (source_id : Nat) (now : Int)
    (db : Db) (entry : RssEntry)
    (h : (entry.title == "" || entry.link == "" || rssGuid entry == "") = false →
      existsMatch db.articles source_id (rssGuid entry) entry.link = true) :
    process_rss_entry source_id now db entry = (db, 0) := by
  unfold process_rss_entry
  dsimp only
  by_cases hc : (entry.title == "" || entry.link == "" || rssGuid entry == "") = true
  · rw [if_pos hc]
  · have hcf : (entry.title == "" || entry.link == "" || rssGuid entry == "") = false := by
      cases hb : (entry.title == "" || entry.link == "" || rssGuid entry == "") with
      | false => rfl
      | true => exact absurd hb hc
    rw [if_neg hc, h hcf, if_pos rfl]

/-- Processing one VK post only ever appends dedup keys. -/
theorem process_vk_post_keys_ext (source_id : Nat) (owner_id : Int) (now : Int)
    (db : Db) (post : VkPost) (db' : Db) (k : Nat)
    (h : process_vk_post source_id owner_id now db post = (db', k)) :
    ∃ ks, db'.articles.map articleKey = db.articles.map articleKey ++ ks := by
  rcases process_vk_post_step source_id owner_id now db post db' k h with
    ⟨_, rfl, _⟩ | ⟨pid, _, _, ⟨rfl, _, _⟩ | ⟨happ, _⟩⟩
  · exact ⟨[], (List.append_nil _).symm⟩
  · exact ⟨[], (List.append_nil _).symm⟩
  · exact ⟨_, happ⟩

/-- Processing one RSS entry only ever appends dedup keys. -/
theorem process_rss_entry_keys_ext (source_id : Nat) (now : Int)
    (db : Db) (entry : RssEntry) (db' : Db) (k : Nat)
    (h : process_rss_entry source_id now db entry = (db', k)) :
    ∃ ks, db'.articles.map articleKey = db.articles.map articleKey ++ ks := by
  rcases process_rss_entry_step source_id now db entry db' k h with
    ⟨_, rfl, _⟩ | ⟨_, ⟨rfl, _, _⟩ | ⟨happ, _⟩⟩
  · exact ⟨[], (List.append_nil _).symm⟩
  · exact ⟨[], (List.append_nil _).symm⟩
  · exact ⟨_, happ⟩

/-- A whole VK pass only ever appends dedup keys. -/
theorem process_vk_fold_keys_ext (source_id : Nat) (owner_id : Int) (now : Int) :
    ∀ (posts : List VkPost) (p : Db × Nat),
      ∃ ks, ((posts.foldl (fun acc post =>
        let r := process_vk_post source_id owner_id now acc.1 post
        (r.1, acc.2 + r.2)) p).1.articles.map articleKey)
        = p.1.articles.map articleKey ++ ks := by
  intro posts
  induction posts with
  | nil => intro p; exact ⟨[], (List.append_nil _).symm⟩
  | cons post rest ih =>
    intro p
    simp only [List.foldl_cons]
    obtain ⟨ks1, h1⟩ := process_vk_post_keys_ext source_id owner_id now p.1 post
      (process_vk_post source_id owner_id now p.1 post).1
      (process_vk_post source_id owner_id now p.1 post).2 rfl
    obtain ⟨ks2, h2⟩ := ih ((process_vk_post source_id owner_id now p.1 post).1,
      p.2 + (process_vk_post source_id owner_id now p.1 post).2)
    exact ⟨ks1 ++ ks2, by rw [h2, h1, List.append_assoc]⟩

/-- A whole RSS pass only ever appends dedup keys. -/
theorem process_rss_fold_keys_ext (source_id : Nat) (now : Int) :
    ∀ (entries : List RssEntry) (p : Db × Nat),
      ∃ ks, ((entries.foldl (fun acc e =>
        let r := process_rss_entry source_id now acc.1 e
        (r.1, acc.2 + r.2)) p).1.articles.map articleKey)
        = p.1.articles.map articleKey ++ ks := by
  intro entries
  induction entries with
  | nil => intro p; exact ⟨[], (List.append_nil _).symm⟩
  | cons e rest ih =>
    intro p
    simp only [List.foldl_cons]
    obtain ⟨ks1, h1⟩ := process_rss_entry_keys_ext source_id now p.1 e
      (process_rss_entry source_id now p.1 e).1 (process_rss_entry source_id now p.1 e).2 rfl
    obtain ⟨ks2, h2⟩ := ih ((process_rss_entry source_id now p.1 e).1,
      p.2 + (process_rss_entry source_id now p.1 e).2)
    exact ⟨ks1 ++ ks2, by rw [h2, h1, List.append_assoc]⟩

/-- After a VK pass, every truthy post's key hits the dedup select on
the final state. -/
theorem process_vk_fold_presence (source_id : Nat) (owner_id : Int) (now : Int) :
    ∀ (posts : List VkPost) (p : Db × Nat) (post : VkPost) (pid : Nat),
      post ∈ posts → post.id = some pid → pid ≠ 0 →
      existsMatch ((posts.foldl (fun acc post =>
        let r := process_vk_post source_id owner_id now acc.1 post
        (r.1, acc.2 + r.2)) p).1).articles source_id (vkGuid owner_id pid)
        (vkLink owner_id pid) = true := by
  intro posts
  induction posts with
  | nil => intro p post pid hmem; cases hmem
  | cons post0 rest ih =>
    intro p post pid hmem hid hnz
    simp only [List.foldl_cons]
    rcases List.mem_cons.mp hmem with rfl | hmem'
    · obtain ⟨ks, hks⟩ := process_vk_fold_keys_ext source_id owner_id now rest
        ((process_vk_post source_id owner_id now p.1 post).1,
          p.2 + (process_vk_post source_id owner_id now p.1 post).2)
      refine existsMatch_mono_keys _ _ _ _ _ ks hks ?_
      rcases process_vk_post_step source_id owner_id now p.1 post
        (process_vk_post source_id owner_id now p.1 post).1
        (process_vk_post source_id owner_id now p.1 post).2 rfl with
        ⟨hfalsy, hdb, _⟩ | ⟨pid', hid', hnz', ⟨hdb, _, hex⟩ | ⟨happ, _⟩⟩
      · exfalso
        rcases hfalsy with hn | h0
        · rw [hid] at hn; cases hn
        · rw [hid] at h0
          exact hnz (Option.some.inj h0)
      · have hpid : pid' = pid := by
          rw [hid] at hid'
          exact (Option.some.inj hid').symm
        subst hpid
        rw [hdb]
        exact hex
      · have hpid : pid' = pid := by
          rw [hid] at hid'
          exact (Option.some.inj hid').symm
        subst hpid
        exact existsMatch_of_key_append _ _ _ _ _ happ
    · exact ih _ post pid hmem' hid hnz

/-- A VK pass over posts whose keys are all present (or falsy) is the
identity with zero additions. -/
theorem process_vk_fold_skip (source_id : Nat) (owner_id : Int) (now2 : Int) :
    ∀ (posts : List VkPost) (p : Db × Nat),
      (∀ post ∈ posts, ∀ pid, post.id = some pid → pid ≠ 0 →
        existsMatch p.1.articles source_id (vkGuid owner_id pid) (vkLink owner_id pid) = true) →
      posts.foldl (fun acc post =>
        let r := process_vk_post source_id owner_id now2 acc.1 post
        (r.1, acc.2 + r.2)) p = p := by
  intro posts
  induction posts with
  | nil => intro p _; rfl
  | cons post rest ih =>
    intro p h
    simp only [List.foldl_cons]
    rw [process_vk_post_skip source_id owner_id now2 p.1 post
      (fun pid hid hnz => h post (List.mem_cons_self _ _) pid hid hnz)]
    show rest.foldl _ (p.1, p.2 + 0) = p
    rw [Nat.add_zero]
    exact ih (p.1, p.2) (fun post' hm' => h post' (List.mem_cons_of_mem _ hm'))

/-- After an RSS pass, every complete entry's key hits the dedup select
on the final state. -/
theorem process_rss_fold_presence (source_id : Nat) (now : Int) :
    ∀ (entries : List RssEntry) (p : Db × Nat) (entry : RssEntry),
      entry ∈ entries →
      (entry.title == "" || entry.link == "" || rssGuid entry == "") = false →
      existsMatch ((entries.foldl (fun acc e =>
        let r := process_rss_entry source_id now acc.1 e
        (r.1, acc.2 + r.2)) p).1).articles source_id (rssGuid entry) entry.link = true := by
  intro entries
  induction entries with
  | nil => intro p entry hmem; cases hmem
  | cons e0 rest ih =>
    intro p entry hmem hcomplete
    simp only [List.foldl_cons]
    rcases List.mem_cons.mp hmem with rfl | hmem'
    · obtain ⟨ks, hks⟩ := process_rss_fold_keys_ext source_id now rest
        ((process_rss_entry source_id now p.1 entry).1,
          p.2 + (process_rss_entry source_id now p.1 entry).2)
      refine existsMatch_mono_keys _ _ _ _ _ ks hks ?_
      rcases process_rss_entry_step source_id now p.1 entry
        (process_rss_entry source_id now p.1 entry).1
        (process_rss_entry source_id now p.1 entry).2 rfl with
        ⟨hskip, _, _⟩ | ⟨_, ⟨hdb, _, hex⟩ | ⟨happ, _⟩⟩
      · rw [hcomplete] at hskip; cases hskip
      · rw [hdb]; exact hex
      · exact existsMatch_of_key_append _ _ _ _ _ happ
    · exact ih _ entry hmem' hcomplete

/-- An RSS pass over entries that are incomplete or already present is
the identity with zero additions. -/
theorem process_rss_fold_skip (source_id : Nat) (now2 : Int) :
    ∀ (entries : List RssEntry) (p : Db × Nat),
      (∀ entry ∈ entries,
        (entry.title == "" || entry.link == "" || rssGuid entry == "") = false →
        existsMatch p.1.articles source_id (rssGuid entry) entry.link = true) →
      entries.foldl (fun acc e =>
        let r := process_rss_entry source_id now2 acc.1 e
        (r.1, acc.2 + r.2)) p = p := by
  intro entries
  induction entries with
  | nil => intro p _; rfl
  | cons e rest ih =>
    intro p h
    simp only [List.foldl_cons]
    rw [process_rss_entry_skip source_id now2 p.1 e
      (fun hcf => h e (List.mem_cons_self _ _) hcf)]
    show rest.foldl _ (p.1, p.2 + 0) = p
    rw [Nat.add_zero]
    exact ih (p.1, p.2) (fun e' hm' => h e' (List.mem_cons_of_mem _ hm'))

/-- Appending a key that the dedup select reported absent preserves the
table's uniqueness of (source_id, guid) and (source_id, link). -/
theorem dedupUnique_key_append (l1 l2 : List Article) (sid : Nat) (g lk : String)
    (hk : l2.map articleKey = l1.map articleKey ++ [(sid, g, lk)])
    (hex : existsMatch l1 sid g lk = false)
    (h : dedupUnique l1) : dedupUnique l2 := by
  unfold dedupUnique at h ⊢
  have h2 : (l2.map articleKey).Pairwise (fun k1 k2 : Nat × String × String =>
      k1.1 = k2.1 → k1.2.1 ≠ k2.2.1 ∧ k1.2.2 ≠ k2.2.2) := by
    rw [hk, List.pairwise_append]
    refine ⟨?_, List.pairwise_singleton _ _, ?_⟩
    · rw [List.pairwise_map]
      exact h
    · intro k1 hk1 k2 hk2
      rcases List.mem_singleton.mp hk2 with rfl
      obtain ⟨a, ha, rfl⟩ := List.mem_map.mp hk1
      intro hsid
      have hsrc : a.source_id = sid := hsid
      unfold existsMatch at hex
      have hfa := List.any_eq_false.mp hex a ha
      constructor
      · intro hg
        apply hfa
        rw [Bool.and_eq_true, Bool.or_eq_true]
        exact ⟨by rw [beq_iff_eq]; exact hsrc, Or.inl (by rw [beq_iff_eq]; exact hg)⟩
      · intro hl
        apply hfa
        rw [Bool.and_eq_true, Bool.or_eq_true]
        exact ⟨by rw [beq_iff_eq]; exact hsrc, Or.inr (by rw [beq_iff_eq]; exact hl)⟩
  rw [List.pairwise_map] at h2
  exact h2

/-- One Telegram message preserves dedup uniqueness. -/
theorem process_tg_message_dedup (channel : String) (source_id : Nat) (now : Int)
    (db : Db) (msg : TgMsg) (db' : Db) (k : Nat)
    (h : process_tg_message channel source_id now db msg = .ok (db', k))
    (hd : dedupUnique db.articles) : dedupUnique db'.articles := by
  rcases process_tg_message_step channel source_id now db msg db' k h with
    ⟨rfl, _, _⟩ | ⟨happ, hex⟩
  · exact hd
  · exact dedupUnique_key_append db.articles db'.articles source_id _ _ happ hex hd

/-- One VK post preserves dedup uniqueness. -/
theorem process_vk_post_dedup (source_id : Nat) (owner_id : Int) (now : Int)
    (db : Db) (post : VkPost) (db' : Db) (k : Nat)
    (h : process_vk_post source_id owner_id now db post = (db', k))
    (hd : dedupUnique db.articles) : dedupUnique db'.articles := by
  rcases process_vk_post_step source_id owner_id now db post db' k h with
    ⟨_, rfl, _⟩ | ⟨pid, _, _, ⟨rfl, _, _⟩ | ⟨happ, hex⟩⟩
  · exact hd
  · exact hd
  · exact dedupUnique_key_append db.articles db'.articles source_id _ _ happ hex hd

/-- One RSS entry preserves dedup uniqueness. -/
theorem process_rss_entry_dedup (source_id : Nat) (now : Int)
    (db : Db) (entry : RssEntry) (db' : Db) (k : Nat)
    (h : process_rss_entry source_id now db entry = (db', k))
    (hd : dedupUnique db.articles) : dedupUnique db'.articles := by
  rcases process_rss_entry_step source_id now db entry db' k h with
    ⟨_, rfl, _⟩ | ⟨_, ⟨rfl, _, _⟩ | ⟨happ, hex⟩⟩
  · exact hd
  · exact hd
  · exact dedupUnique_key_append db.articles db'.articles source_id _ _ happ hex hd

/-- A whole Telegram pass preserves dedup uniqueness. -/
theorem process_tg_source_dedup (channel : String) (source_id : Nat) (now : Int) :
    ∀ (events : List TgEvent) (db : Db) (acc : Nat), dedupUnique db.articles →
      dedupUnique (process_tg_source channel source_id now db events acc).db.articles := by
  intro events
  induction events with
  | nil => intro db acc hd; exact hd
  | cons e rest ih =>
    intro db acc hd
    cases e with
    | msg m =>
      simp only [process_tg_source]
      cases hm : process_tg_message channel source_id now db m with
      | ok p =>
        exact ih p.1 (acc + p.2)
          (process_tg_message_dedup channel source_id now db m p.1 p.2 (by rw [hm]) hd)
      | error e => exact hd
    | floodErr s => exact hd
    | rpcErr => exact hd
    | unexpectedErr => exact hd

/-- A whole VK pass preserves dedup uniqueness. -/
theorem process_vk_fold_dedup (source_id : Nat) (owner_id : Int) (now : Int) :
    ∀ (posts : List VkPost) (p : Db × Nat), dedupUnique p.1.articles →
      dedupUnique ((posts.foldl (fun acc post =>
        let r := process_vk_post source_id owner_id now acc.1 post
        (r.1, acc.2 + r.2)) p).1).articles := by
  intro posts
  induction posts with
  | nil => intro p hd; exact hd
  | cons post rest ih =>
    intro p hd
    simp only [List.foldl_cons]
    exact ih _ (process_vk_post_dedup source_id owner_id now p.1 post _ _ rfl hd)

/-- A whole RSS pass preserves dedup uniqueness. -/
theorem process_rss_fold_dedup (source_id : Nat) (now : Int) :
    ∀ (entries : List RssEntry) (p : Db × Nat), dedupUnique p.1.articles →
      dedupUnique ((entries.foldl (fun acc e =>
        let r := process_rss_entry source_id now acc.1 e
        (r.1, acc.2 + r.2)) p).1).articles := by
  intro entries
  induction entries with
  | nil => intro p hd; exact hd
  | cons e rest ih =>
    intro p hd
    simp only [List.foldl_cons]
    exact ih _ (process_rss_entry_dedup source_id now p.1 e _ _ rfl hd)

/-- Every pass preserves dedup uniqueness. -/
theorem runPass_dedup (db : Db) (p : Pass) (hd : dedupUnique db.articles) :
    dedupUnique (runPass db p).articles := by
  cases p with
  | tg channel source_id now events =>
    exact process_tg_source_dedup channel source_id now events db 0 hd
  | vk source_id owner_id now posts =>
    exact process_vk_fold_dedup source_id owner_id now posts (db, 0) hd
  | rss source_id now entries =>
    exact process_rss_fold_dedup source_id now entries (db, 0) hd

/-- Any sequence of passes preserves dedup uniqueness. -/
theorem runPasses_dedup : ∀ (ps : List Pass) (db : Db), dedupUnique db.articles →
    dedupUnique (runPasses db ps).articles := by
  intro ps
  induction ps with
  | nil => intro db hd; exact hd
  | cons p rest ih =>
    intro db hd
    exact ih (runPass db p) (runPass_dedup db p hd)

/-- C1: fetch passes are idempotent over identical source data.  A
second Telegram pass over the same messages (after the first completed)
skips every item and returns the state unchanged with zero added; the
same holds for a second VK pass over the same wall posts and a second
RSS pass over the same feed entries; and no pass sequence ever creates
two Article rows sharing (source_id, guid) or (source_id, link). -/
theorem fetch_pass_idempotent :
    (∀ (channel : String) (source_id : Nat) (now now2 : Int) (db : Db) (msgs : List TgMsg),
      (runTgPass channel source_id now db (msgs.map .msg)).completed = true →
      runTgPass channel source_id now2 (runTgPass channel source_id now db (msgs.map .msg)).db
        (msgs.map .msg)
        = ⟨(runTgPass channel source_id now db (msgs.map .msg)).db, 0, [], true⟩)
    ∧ (∀ (source_id : Nat) (owner_id : Int) (now now2 : Int) (db : Db) (posts : List VkPost),
        process_vk_source source_id owner_id now2
          (process_vk_source source_id owner_id now db posts).1 posts
          = ((process_vk_source source_id owner_id now db posts).1, 0))
    ∧ (∀ (source_id : Nat) (now now2 : Int) (db : Db) (entries : List RssEntry),
        process_rss_source source_id now2
          (process_rss_source source_id now db entries).1 entries
          = ((process_rss_source source_id now db entries).1, 0))
    ∧ (∀ (db : Db) (ps : List Pass), dedupUnique db.articles →
        dedupUnique (runPasses db ps).articles) := by
  refine ⟨?_, ?_, ?_, fun db ps => runPasses_dedup ps db⟩
  · intro channel source_id now now2 db msgs hcompl
    show process_tg_source channel source_id now2 _ (msgs.map .msg) 0 = _
    apply process_tg_source_skip_all
    intro m hm
    have hpres := process_tg_source_presence channel source_id now (msgs.map .msg) db 0 m
      (List.mem_map_of_mem _ hm) hcompl
    exact hpres
  · intro source_id owner_id now now2 db posts
    show posts.foldl _ ((process_vk_source source_id owner_id now db posts).1, 0) = _
    apply process_vk_fold_skip
    intro post hmem pid hid hnz
    exact process_vk_fold_presence source_id owner_id now posts (db, 0) post pid hmem hid hnz
  · intro source_id now now2 db entries
    show entries.foldl _ ((process_rss_source source_id now db entries).1, 0) = _
    apply process_rss_fold_skip
    intro entry hmem hcf
    exact process_rss_fold_presence source_id now entries (db, 0) entry hmem hcf

/-- C1 witness: a completed concrete Telegram pass re-run a second time
adds nothing, and likewise for a concrete VK re-pass. -/
theorem fetch_pass_idempotent_witness :
    (runTgPass "c" 1 500 emptyDb ([tgTextMsg1, tgTextMsg2].map .msg)).completed = true
    ∧ runTgPass "c" 1 900 (runTgPass "c" 1 500 emptyDb ([tgTextMsg1, tgTextMsg2].map .msg)).db
        ([tgTextMsg1, tgTextMsg2].map .msg)
      = ⟨(runTgPass "c" 1 500 emptyDb ([tgTextMsg1, tgTextMsg2].map .msg)).db, 0, [], true⟩
    ∧ process_vk_source 1 (-5) 900
        (process_vk_source 1 (-5) 500 emptyDb [⟨some 3, "post", some 100⟩]).1
        [⟨some 3, "post", some 100⟩]
      = ((process_vk_source 1 (-5) 500 emptyDb [⟨some 3, "post", some 100⟩]).1, 0) := by
  refine ⟨by decide, ?_, ?_⟩
  · exact fetch_pass_idempotent.1 "c" 1 500 900 emptyDb [tgTextMsg1, tgTextMsg2] (by decide)
  · exact fetch_pass_idempotent.2.1 1 (-5) 500 900 emptyDb [⟨some 3, "post", some 100⟩]

/-- C7 witness: the nearest-parent theorem applied to the concrete
orphan message arriving 4 seconds after the stored text post. -/
theorem orphan_attached_to_nearest_parent_witness :
    ∃ db', process_tg_message "c" 1 1004 dbWithTextPost tgOrphanMsg = .ok (db', 1)
      ∧ ∃ c ∈ db'.articles, c.id = dbWithTextPost.nextId
        ∧ ((∀ b ∈ dbWithTextPost.articles, ¬ parentCandidate b 1 1004) →
            c.parent_article_id = none)
        ∧ ((∃ b ∈ dbWithTextPost.articles, parentCandidate b 1 1004) →
            c.parent_article_id.isSome)
        ∧ (∀ pid, c.parent_article_id = some pid →
            ∃ a ∈ dbWithTextPost.articles, a.id = pid ∧ parentCandidate a 1 1004
              ∧ ∀ b ∈ dbWithTextPost.articles, parentCandidate b 1 1004 →
                  candDist a 1004 ≤ candDist b 1004
                  ∧ (candDist b 1004 = candDist a 1004 → a.id ≤ b.id)) :=
  orphan_attached_to_nearest_parent "c" 1 1004 1004 dbWithTextPost tgOrphanMsg
    (by simp [idsSorted, dbWithTextPost])
    (by
      intro a ha
      have haeq : a = textArticle := by simpa [dbWithTextPost] using ha
      rw [haeq]
      decide)
    (by decide) (by decide) rfl rfl

end EditorAssistant
